import Mathlib

/-!
libadblockplus: web request bridge and filter engine factory

A shallow embedding of `src/DefaultWebRequestCurl.cpp` (result-code translation,
header callback, header loop of `GET`/`HEAD`) and of `src/FilterEngineFactory.cpp`
(`FilterEngineFactory::CreateAsync` and the event handlers it registers), followed by
theorems about them.

Conventions:
* a `std::string` is a `List Char` (one `Char` per byte);
* `unsigned int` and `int` are `Nat` with explicit reduction modulo `2 ^ 32` or
  saturation at `INT_MAX` where the C++ code converts;
* calls into collaborators (script functions, the policy callback, `onCreated`,
  `evaluateCallback`) are recorded in a trace of `Effect`s.
-/

namespace AdblockPlus

/-! ## Character classes (`<cctype>`, "C" locale) -/

/-- The `isspace` of `<cctype>`: space, `\t`, `\n`, `\v`, `\f`, `\r`. -/
def isspace (c : Char) : Bool :=
  c = ' ' || c = '\t' || c = '\n' || c = Char.ofNat 11 || c = Char.ofNat 12 || c = '\r'

/-- The `isdigit` of `<cctype>`: `0` to `9`. -/
def isdigit (c : Char) : Bool :=
  48 ≤ c.toNat && c.toNat ≤ 57

/-- The `tolower` of `<cctype>`: `A`..`Z` are mapped to `a`..`z`, anything else is kept. -/
def tolower (c : Char) : Char :=
  if 65 ≤ c.toNat && c.toNat ≤ 90 then Char.ofNat (c.toNat + 32) else c

/-! ## `std::string` operations used by the source -/

/-- The call `s.substr(pos, n)`. -/
def substr (s : List Char) (pos n : Nat) : List Char :=
  (s.drop pos).take n

/-- The loop `while (i < s.length() && p(s[i])) i++;`, returning the final `i`. -/
def scanForward (p : Char → Bool) (s : List Char) (i : Nat) : Nat :=
  i + ((s.drop i).takeWhile p).length

/-- The loop `while (e > lo && p(s[e - 1])) e--;`, returning the final `e`. -/
def scanBackward (p : Char → Bool) (s : List Char) (lo e : Nat) : Nat :=
  e - ((((s.take e).drop lo).reverse).takeWhile p).length

/-- The call `s.find(c)`: index of the first `c`, `none` for `std::string::npos`. -/
def find (s : List Char) (c : Char) : Option Nat :=
  if c ∈ s then some (s.indexOf c) else none

/-- Decimal value of a string of digits. -/
def decimalValue (s : List Char) : Nat :=
  s.foldl (fun acc c => 10 * acc + (c.toNat - 48)) 0

/-- The largest `int`. -/
def INT_MAX : Int := 2147483647

/-- The extraction `std::istringstream(s) >> n` into an `int` for a non-empty string
of decimal digits: the decimal value, or the largest `int` when that value does not
fit (C++11 `num_get` rule). -/
def extractInt (s : List Char) : Int :=
  min (decimalValue s : Int) INT_MAX

/-! ## Result codes -/

/-- Result codes of the transport (`CURLcode` of `<curl/curl.h>`). -/
def CURLE_OK : Nat := 0
/-- See `CURLE_OK`. -/
def CURLE_UNSUPPORTED_PROTOCOL : Nat := 1
/-- See `CURLE_OK`. -/
def CURLE_FAILED_INIT : Nat := 2
/-- See `CURLE_OK`. -/
def CURLE_URL_MALFORMAT : Nat := 3
/-- See `CURLE_OK`. -/
def CURLE_COULDNT_RESOLVE_PROXY : Nat := 5
/-- See `CURLE_OK`. -/
def CURLE_COULDNT_RESOLVE_HOST : Nat := 6
/-- See `CURLE_OK`. -/
def CURLE_COULDNT_CONNECT : Nat := 7
/-- See `CURLE_OK`. -/
def CURLE_OUT_OF_MEMORY : Nat := 27
/-- See `CURLE_OK`. -/
def CURLE_OPERATION_TIMEDOUT : Nat := 28
/-- See `CURLE_OK`. -/
def CURLE_TOO_MANY_REDIRECTS : Nat := 47
/-- See `CURLE_OK`. -/
def CURLE_GOT_NOTHING : Nat := 52
/-- See `CURLE_OK`. -/
def CURLE_SEND_ERROR : Nat := 55
/-- See `CURLE_OK`. -/
def CURLE_RECV_ERROR : Nat := 56

/-- The enumerators of `AdblockPlus::IWebRequest` that the source refers to. The header
declaring them is not part of the sources at hand, so their values are parameters. -/
structure IWebRequest where
  NS_OK : Nat
  NS_ERROR_NOT_INITIALIZED : Nat
  NS_ERROR_UNKNOWN_PROTOCOL : Nat
  NS_ERROR_MALFORMED_URI : Nat
  NS_ERROR_UNKNOWN_PROXY_HOST : Nat
  NS_ERROR_UNKNOWN_HOST : Nat
  NS_ERROR_CONNECTION_REFUSED : Nat
  NS_ERROR_OUT_OF_MEMORY : Nat
  NS_ERROR_NET_TIMEOUT : Nat
  NS_ERROR_REDIRECT_LOOP : Nat
  NS_ERROR_NO_CONTENT : Nat
  NS_ERROR_NET_RESET : Nat
  NS_CUSTOM_ERROR_BASE : Nat
  deriving DecidableEq, Repr

/-- Every enumerator is a value of type `unsigned int`. -/
def IWebRequest.fitsUnsigned (ns : IWebRequest) : Prop :=
  ns.NS_OK < 2 ^ 32 ∧ ns.NS_ERROR_NOT_INITIALIZED < 2 ^ 32 ∧
  ns.NS_ERROR_UNKNOWN_PROTOCOL < 2 ^ 32 ∧ ns.NS_ERROR_MALFORMED_URI < 2 ^ 32 ∧
  ns.NS_ERROR_UNKNOWN_PROXY_HOST < 2 ^ 32 ∧ ns.NS_ERROR_UNKNOWN_HOST < 2 ^ 32 ∧
  ns.NS_ERROR_CONNECTION_REFUSED < 2 ^ 32 ∧ ns.NS_ERROR_OUT_OF_MEMORY < 2 ^ 32 ∧
  ns.NS_ERROR_NET_TIMEOUT < 2 ^ 32 ∧ ns.NS_ERROR_REDIRECT_LOOP < 2 ^ 32 ∧
  ns.NS_ERROR_NO_CONTENT < 2 ^ 32 ∧ ns.NS_ERROR_NET_RESET < 2 ^ 32 ∧
  ns.NS_CUSTOM_ERROR_BASE < 2 ^ 32

instance (ns : IWebRequest) : Decidable ns.fitsUnsigned := by
  unfold IWebRequest.fitsUnsigned
  infer_instance

/-- Conversion of a value to the return type `unsigned int`. -/
def toUnsigned (n : Nat) : Nat := n % 2 ^ 32

/-- The function `ConvertErrorCode` of `DefaultWebRequestCurl.cpp`: a `switch` over the
transport result code with a `default` branch. -/
def ConvertErrorCode (ns : IWebRequest) (code : Nat) : Nat :=
  if code = CURLE_OK then toUnsigned ns.NS_OK
  else if code = CURLE_FAILED_INIT then toUnsigned ns.NS_ERROR_NOT_INITIALIZED
  else if code = CURLE_UNSUPPORTED_PROTOCOL then toUnsigned ns.NS_ERROR_UNKNOWN_PROTOCOL
  else if code = CURLE_URL_MALFORMAT then toUnsigned ns.NS_ERROR_MALFORMED_URI
  else if code = CURLE_COULDNT_RESOLVE_PROXY then toUnsigned ns.NS_ERROR_UNKNOWN_PROXY_HOST
  else if code = CURLE_COULDNT_RESOLVE_HOST then toUnsigned ns.NS_ERROR_UNKNOWN_HOST
  else if code = CURLE_COULDNT_CONNECT then toUnsigned ns.NS_ERROR_CONNECTION_REFUSED
  else if code = CURLE_OUT_OF_MEMORY then toUnsigned ns.NS_ERROR_OUT_OF_MEMORY
  else if code = CURLE_OPERATION_TIMEDOUT then toUnsigned ns.NS_ERROR_NET_TIMEOUT
  else if code = CURLE_TOO_MANY_REDIRECTS then toUnsigned ns.NS_ERROR_REDIRECT_LOOP
  else if code = CURLE_GOT_NOTHING then toUnsigned ns.NS_ERROR_NO_CONTENT
  else if code = CURLE_SEND_ERROR then toUnsigned ns.NS_ERROR_NET_RESET
  else if code = CURLE_RECV_ERROR then toUnsigned ns.NS_ERROR_NET_RESET
  else toUnsigned (ns.NS_CUSTOM_ERROR_BASE + code)

/-- A sample assignment of the `IWebRequest` enumerators (Mozilla `nsresult` style). -/
def sampleCodes : IWebRequest where
  NS_OK := 0
  NS_ERROR_NOT_INITIALIZED := 0xc1f30001
  NS_ERROR_UNKNOWN_PROTOCOL := 0x804b0012
  NS_ERROR_MALFORMED_URI := 0x804b000a
  NS_ERROR_UNKNOWN_PROXY_HOST := 0x804b002a
  NS_ERROR_UNKNOWN_HOST := 0x804b001e
  NS_ERROR_CONNECTION_REFUSED := 0x804b000d
  NS_ERROR_OUT_OF_MEMORY := 0x8007000e
  NS_ERROR_NET_TIMEOUT := 0x804b000e
  NS_ERROR_REDIRECT_LOOP := 0x804b001f
  NS_ERROR_NO_CONTENT := 0x804b0011
  NS_ERROR_NET_RESET := 0x804b0014
  NS_CUSTOM_ERROR_BASE := 0x80850000


/-! ## The header callback -/

/-- The character `s[i]` of a `std::string` (`s[s.length()]` is the NUL character). -/
def charAt (s : List Char) (i : Nat) : Char :=
  s.getD i (Char.ofNat 0)

/-- The `struct HeaderData`. -/
structure HeaderData where
  status : Int
  expectingStatus : Bool
  headers : List (List Char)
  deriving DecidableEq, Repr

/-- The constructor `HeaderData()`. -/
def HeaderData.new : HeaderData :=
  { status := 0, expectingStatus := true, headers := [] }

/-- The local constant `"HTTP/1."` of `ReceiveHeader`. -/
def statusLead : List Char := ['H', 'T', 'T', 'P', '/', '1', '.']

/-- The callback `ReceiveHeader` of `DefaultWebRequestCurl.cpp`, as the change it makes to
the `HeaderData` it is given when called with one header line. -/
def ReceiveHeader (data : HeaderData) (header : List Char) : HeaderData :=
  if data.expectingStatus then
    let leadLen := statusLead.length
    if header.length ≥ leadLen + 2 && substr header 0 leadLen == statusLead &&
        isdigit (charAt header leadLen) && isspace (charAt header (leadLen + 1)) then
      let statusStart := scanForward isspace header (leadLen + 2)
      let statusEnd := scanForward isdigit header statusStart
      if statusEnd > statusStart && statusEnd < header.length &&
          isspace (charAt header statusEnd) then
        { status := extractInt (substr header statusStart (statusEnd - statusStart)),
          headers := [],
          expectingStatus := false }
      else data
    else data
  else
    let headerEnd := scanBackward isspace header 0 header.length
    if headerEnd ≠ 0 then
      { data with headers := data.headers ++ [substr header 0 headerEnd] }
    else
      { data with expectingStatus := true }

/-- The callback `ReceiveData`: the chunk is written to the end of the stream. -/
def ReceiveData (stream : List Char) (chunk : List Char) : List Char :=
  stream ++ chunk

/-! ## `GET` and `HEAD` -/

/-- The `struct ServerResponse`. -/
structure ServerResponse where
  status : Nat
  responseStatus : Int
  responseText : List Char
  responseHeaders : List (List Char × List Char)
  deriving DecidableEq, Repr

/-- An option given to `curl_easy_setopt`, with its value. -/
inductive CurlOption where
  | URL (url : List Char)
  | FOLLOWLOCATION (value : Int)
  | WRITEFUNCTION_ReceiveData
  | WRITEDATA_responseText
  | ACCEPT_ENCODING (value : List Char)
  | HEADERFUNCTION_ReceiveHeader
  | HEADERDATA_headerData
  | HTTPHEADER (lines : List (List Char))
  | NOBODY (value : Int)
  deriving DecidableEq, Repr

/-- What one `curl_easy_perform` does as seen by the caller: the header lines it hands
to the header callback, the body chunks it hands to the write callback, and the code it
returns. -/
structure PerformResult where
  code : Nat
  headerLines : List (List Char)
  bodyChunks : List (List Char)
  deriving DecidableEq, Repr

/-- A transport handle: its behaviour under the options set on it. -/
abbrev Curl := List CurlOption → PerformResult

/-- The body of the loop over `headerData.headers` for one stored line: the pair that is
pushed to `responseHeaders`, if any. -/
def parseHeaderLine (header : List Char) : Option (List Char × List Char) :=
  match find header ':' with
  | none => none
  | some colonPos =>
    let nameStart := 0
    let nameEnd := scanBackward isspace header nameStart colonPos
    let valueStart := scanForward isspace header (colonPos + 1)
    let valueEnd := header.length
    if nameEnd > nameStart && valueEnd > valueStart then
      let name := (substr header nameStart (nameEnd - nameStart)).map tolower
      let value := substr header valueStart (valueEnd - valueStart)
      some (name, value)
    else none

/-- The loop `for (const auto& header : headerData.headers)` of `GET` and `HEAD`, started
with the given `responseHeaders`. -/
def headerLoop (responseHeaders : List (List Char × List Char)) (headers : List (List Char)) :
    List (List Char × List Char) :=
  headers.foldl
    (fun acc header =>
      match parseHeaderLine header with
      | some p => acc ++ [p]
      | none => acc)
    responseHeaders

/-- The loop over `requestHeaders` that builds the `curl_slist`. -/
def buildHeaderList (requestHeaders : List (List Char × List Char)) : List (List Char) :=
  requestHeaders.foldl (fun headerList header => headerList ++ [header.1 ++ [':', ' '] ++ header.2]) []

/-- The options that `GET` sets on the handle, in order. -/
def getOptions (url : List Char) (requestHeaders : List (List Char × List Char)) :
    List CurlOption :=
  let headerList := buildHeaderList requestHeaders
  [CurlOption.URL url, CurlOption.FOLLOWLOCATION 1, CurlOption.WRITEFUNCTION_ReceiveData,
    CurlOption.WRITEDATA_responseText, CurlOption.ACCEPT_ENCODING [],
    CurlOption.HEADERFUNCTION_ReceiveHeader, CurlOption.HEADERDATA_headerData] ++
  (if headerList ≠ [] then [CurlOption.HTTPHEADER headerList] else [])

/-- The part of `GET` and `HEAD` after `curl_easy_perform`: the response built from the
result code, the `HeaderData` and the received body. -/
def fillResponse (ns : IWebRequest) (code : Nat) (headerData : HeaderData)
    (responseText : List Char) : ServerResponse :=
  { status := ConvertErrorCode ns code,
    responseStatus := headerData.status,
    responseText := responseText,
    responseHeaders := headerLoop [] headerData.headers }

/-- The method `DefaultWebRequestSync::GET`. The argument `curl_easy_init` is the
result of the call of that name: `none` for a null handle. -/
def GET (ns : IWebRequest) (curl_easy_init : Option Curl) (url : List Char)
    (requestHeaders : List (List Char × List Char)) : ServerResponse :=
  let result : ServerResponse :=
    { status := ns.NS_ERROR_NOT_INITIALIZED, responseStatus := 0,
      responseText := [], responseHeaders := [] }
  match curl_easy_init with
  | none => result
  | some curl =>
    let performed := curl (getOptions url requestHeaders)
    let responseText := performed.bodyChunks.foldl ReceiveData []
    let headerData := performed.headerLines.foldl ReceiveHeader HeaderData.new
    fillResponse ns performed.code headerData responseText

/-- The options that `HEAD` sets on the handle, in order. -/
def headOptions (url : List Char) (requestHeaders : List (List Char × List Char)) :
    List CurlOption :=
  let headerList := buildHeaderList requestHeaders
  [CurlOption.URL url, CurlOption.FOLLOWLOCATION 1, CurlOption.WRITEFUNCTION_ReceiveData,
    CurlOption.WRITEDATA_responseText, CurlOption.ACCEPT_ENCODING [],
    CurlOption.HEADERFUNCTION_ReceiveHeader, CurlOption.HEADERDATA_headerData] ++
  (if headerList ≠ [] then [CurlOption.HTTPHEADER headerList] else [])

/-- The method `DefaultWebRequestSync::HEAD`. -/
def HEAD (ns : IWebRequest) (curl_easy_init : Option Curl) (url : List Char)
    (requestHeaders : List (List Char × List Char)) : ServerResponse :=
  let result : ServerResponse :=
    { status := ns.NS_ERROR_NOT_INITIALIZED, responseStatus := 0,
      responseText := [], responseHeaders := [] }
  match curl_easy_init with
  | none => result
  | some curl =>
    let performed := curl (headOptions url requestHeaders)
    let responseText := performed.bodyChunks.foldl ReceiveData []
    let headerData := performed.headerLines.foldl ReceiveHeader HeaderData.new
    fillResponse ns performed.code headerData responseText

/-! ## Vocabulary of the statements about header streams -/

/-- A line is blank when it has no character other than whitespace. -/
def isBlank (line : List Char) : Bool :=
  line.all isspace

/-- Whitespace removed from the end of a text. -/
def trimEnd (s : List Char) : List Char :=
  (s.reverse.dropWhile isspace).reverse

/-- Whitespace removed from the start of a text. -/
def trimStart (s : List Char) : List Char :=
  s.dropWhile isspace

/-- Whitespace removed from both the start and the end of a text. -/
def trimBoth (s : List Char) : List Char :=
  trimEnd (trimStart s)

/-- The text before the first colon of a line. -/
def beforeColon (line : List Char) : List Char :=
  line.takeWhile (fun c => c != ':')

/-- The text after the first colon of a line. -/
def afterColon (line : List Char) : List Char :=
  (line.dropWhile (fun c => c != ':')).drop 1

/-- One block of a raw header stream: a status line `HTTP/1.<minor> <code> <reason>`,
header lines, and a terminating blank line. -/
structure HeaderBlock where
  minor : Char
  code : List Char
  reason : List Char
  headers : List (List Char)
  blank : List Char
  deriving DecidableEq, Repr

/-- The status line `HTTP/1.<minor> <code> <reason>`. -/
def statusLine (minor : Char) (code reason : List Char) : List Char :=
  statusLead ++ [minor] ++ [' '] ++ code ++ [' '] ++ reason

/-- The lines of a block, in the order they are received. -/
def HeaderBlock.lines (b : HeaderBlock) : List (List Char) :=
  statusLine b.minor b.code b.reason :: (b.headers ++ [b.blank])

/-- The shape of a status line: the minor version is a digit and the code is one or more
digits. -/
def wellFormedStatus (minor : Char) (code : List Char) : Prop :=
  isdigit minor = true ∧ code ≠ [] ∧ ∀ c ∈ code, isdigit c = true

instance (minor : Char) (code : List Char) : Decidable (wellFormedStatus minor code) := by
  unfold wellFormedStatus
  infer_instance

/-- A block is well formed when its status line is, none of its header lines is blank,
and its last line is blank. -/
def HeaderBlock.wellFormed (b : HeaderBlock) : Prop :=
  wellFormedStatus b.minor b.code ∧ (∀ h ∈ b.headers, isBlank h = false) ∧
    isBlank b.blank = true

instance (b : HeaderBlock) : Decidable b.wellFormed := by
  unfold HeaderBlock.wellFormed
  infer_instance

/-- The raw header stream made of the given blocks. -/
def streamOf (blocks : List HeaderBlock) : List (List Char) :=
  (blocks.map HeaderBlock.lines).flatten

/-- A stored header line is malformed when it has no colon, or nothing but whitespace
before its first colon, or nothing but whitespace after it. -/
def isMalformed (line : List Char) : Prop :=
  ':' ∉ line ∨ isBlank (beforeColon line) = true ∨ isBlank (afterColon line) = true

instance (line : List Char) : Decidable (isMalformed line) := by
  unfold isMalformed
  infer_instance

/-! ## Sample data -/

/-- The block `HTTP/1.1 200 OK`, `Content-Type: text/html`, empty line. -/
def sampleBlock : HeaderBlock :=
  { minor := '1', code := "200".toList, reason := "OK".toList,
    headers := ["Content-Type: text/html".toList], blank := [] }

/-- A block whose status code does not fit an `int`. -/
def overflowBlock : HeaderBlock :=
  { minor := '1', code := "99999999999".toList, reason := "X".toList,
    headers := [], blank := [] }

/-- A transport that succeeds, delivers the given header lines and no body. -/
def sampleCurl (headerLines : List (List Char)) : Curl :=
  fun _ => { code := CURLE_OK, headerLines := headerLines, bodyChunks := [] }

/-- A stored header line with whitespace before its name. -/
def indentedLine : List Char := " Foo: bar".toList

/-- A raw stream whose second line is stored as `indentedLine`. -/
def indentedStream : List (List Char) :=
  ["HTTP/1.1 200 OK".toList, " Foo: bar\r\n".toList]

/-! ## Script values and the script engine

`JsValue.h` and `JsEngine.cpp` are not among the sources at hand. The parts of them that
`FilterEngineFactory.cpp` uses are modelled from the specification (sections 3, 4.2, 4.3
and 4.4). -/

/-- Modelled from the spec: the Value Box of section 4.2 (`JsValue`), a handle to a
script value that is null, a boolean, a number, a string, a function or another object.
Functions and objects are identified by a number. -/
inductive JsValue where
  | null
  | undefined
  | bool (b : Bool)
  | number (n : Int)
  | string (s : String)
  | function (id : Nat)
  | object (id : Nat)
  deriving DecidableEq, Repr

/-- The type `JsValueList`. -/
abbrev JsValueList := List JsValue

/-- Modelled from the spec: the type predicate `IsNull`. -/
def JsValue.IsNull : JsValue → Bool
  | JsValue.null => true
  | _ => false

/-- Modelled from the spec: the type predicate `IsString`. -/
def JsValue.IsString : JsValue → Bool
  | JsValue.string _ => true
  | _ => false

/-- Modelled from the spec: the type predicate `IsFunction`. -/
def JsValue.IsFunction : JsValue → Bool
  | JsValue.function _ => true
  | _ => false

/-- Modelled from the spec: the conversion `AsString`, used by the source on strings
only. -/
def JsValue.AsString : JsValue → String
  | JsValue.string s => s
  | _ => ""

/-- The element `params[i]` of a `JsValueList`. -/
def JsValueList.at (params : JsValueList) (i : Nat) : JsValue :=
  params.getD i JsValue.undefined

/-- A call that the code under study makes into one of its collaborators. -/
inductive Effect where
  /-- The call `f.Call(args)` of a script function. -/
  | call (f : JsValue) (args : JsValueList)
  /-- The call of `isSubscriptionDownloadAllowedCallback`, with the connection type
  (`none` for a null pointer) and the continuation `callJsCallback` that captured
  `valuesID`. -/
  | isSubscriptionDownloadAllowedCallback (allowedConnectionType : Option String)
      (valuesID : Nat)
  /-- The call of `onCreated`; the flag tells whether the pointer handed over holds the
  filter engine. -/
  | onCreated (holdsFilterEngine : Bool)
  /-- The call `NotifyLowMemory()`. -/
  | notifyLowMemory
  /-- The call `SetGlobalProperty(name, object)`, the object given by its properties. -/
  | setGlobalProperty (name : String) (properties : List (String × JsValue))
  /-- The call `evaluateCallback(filename)`. -/
  | evaluateCallback (filename : List Char)
  deriving DecidableEq, Repr

/-- How a piece of code ends. -/
inductive Outcome where
  /-- It returns to its caller. -/
  | returned
  /-- An `assert` fails and aborts the process. -/
  | assertionFailed
  /-- `TakeJsValues` is given a key that has no entry. -/
  | unknownKey
  /-- The method `back()` is called on an empty vector. -/
  | backOfEmpty
  deriving DecidableEq, Repr

/-- The closures that `FilterEngineFactory::CreateAsync` registers as event callbacks. -/
inductive EventCallback where
  /-- The handler of `_isSubscriptionDownloadAllowed`; the flag tells whether the captured
  `isSubscriptionDownloadAllowedCallback` is non-empty. -/
  | isSubscriptionDownloadAllowed (hasCallback : Bool)
  /-- The handler of `_init`. -/
  | init
  /-- The handler installed by `SetFilterChangeCallback`. -/
  | filterChange
  deriving DecidableEq, Repr

/-- Modelled from the spec: the state of the `JsEngine` that the factory touches, namely
the Event Callback Registry (section 4.4) and the Async Value Table (section 4.3) with
its key counter. -/
structure JsEngine where
  eventCallbacks : List (String × EventCallback)
  jsValues : List (Nat × JsValueList)
  nextValuesID : Nat
  deriving DecidableEq, Repr

/-- Modelled from the spec: `SetEventCallback(name, handler)`; at most one handler per
name, re-registering replaces. -/
def JsEngine.SetEventCallback (jsEngine : JsEngine) (name : String) (cb : EventCallback) :
    JsEngine :=
  { jsEngine with
    eventCallbacks := (name, cb) :: jsEngine.eventCallbacks.filter (fun p => p.1 != name) }

/-- Modelled from the spec: `RemoveEventCallback(name)`; removing an absent name is a
no-op. -/
def JsEngine.RemoveEventCallback (jsEngine : JsEngine) (name : String) : JsEngine :=
  { jsEngine with
    eventCallbacks := jsEngine.eventCallbacks.filter (fun p => p.1 != name) }

/-- Modelled from the spec: `Store(values) -> key` of section 4.3, with a monotonic
counter as the source of keys. -/
def JsEngine.StoreJsValues (jsEngine : JsEngine) (values : JsValueList) : JsEngine × Nat :=
  ({ jsEngine with
      jsValues := (jsEngine.nextValuesID, values) :: jsEngine.jsValues,
      nextValuesID := jsEngine.nextValuesID + 1 },
   jsEngine.nextValuesID)

/-- Modelled from the spec: `Take(key)` of section 4.3; removes and returns the entry for
`key`, and fails (`none`, the `UnknownKey` failure) if there is no entry. -/
def JsEngine.TakeJsValues (jsEngine : JsEngine) (key : Nat) : Option (JsEngine × JsValueList) :=
  match jsEngine.jsValues.lookup key with
  | none => none
  | some values =>
    some ({ jsEngine with jsValues := jsEngine.jsValues.filter (fun p => p.1 != key) }, values)

/-! ## `FilterEngineFactory::CreateAsync` -/

/-- The local `areArgumentsValid` of the `_isSubscriptionDownloadAllowed` handler. -/
def areArgumentsValid (params : JsValueList) : Bool :=
  params.length == 2 && ((params.at 0).IsNull || (params.at 0).IsString) &&
    (params.at 1).IsFunction

/-- The lambda registered under `_isSubscriptionDownloadAllowed`. `NDEBUG` tells whether
the build defines that macro, which turns `assert` into nothing; `hasCallback` tells
whether the captured `isSubscriptionDownloadAllowedCallback` is non-empty. -/
def isSubscriptionDownloadAllowedHandler (NDEBUG : Bool) (hasCallback : Bool)
    (jsEngine : JsEngine) (params : JsValueList) : JsEngine × List Effect × Outcome :=
  if !NDEBUG && !areArgumentsValid params then
    (jsEngine, [], Outcome.assertionFailed)
  else if !areArgumentsValid params then
    (jsEngine, [], Outcome.returned)
  else if !hasCallback then
    (jsEngine, [Effect.call (params.at 1) [JsValue.bool true]], Outcome.returned)
  else
    let stored := jsEngine.StoreJsValues params
    let valuesID := stored.2
    let allowedConnectionType : String :=
      if (params.at 0).IsString then (params.at 0).AsString else ""
    (stored.1,
      [Effect.isSubscriptionDownloadAllowedCallback
        (if (params.at 0).IsString then some allowedConnectionType else none) valuesID],
      Outcome.returned)

/-- The lambda `callJsCallback` that the handler hands to the policy callback. -/
def callJsCallback (valuesID : Nat) (jsEngine : JsEngine) (isAllowed : Bool) :
    JsEngine × List Effect × Outcome :=
  match jsEngine.TakeJsValues valuesID with
  | none => (jsEngine, [], Outcome.unknownKey)
  | some (jsEngine1, jsParams) =>
    (jsEngine1, [Effect.call (jsParams.at 1) [JsValue.bool isAllowed]], Outcome.returned)

/-- The state that the registered closures share: the engine and the `unique_ptr` inside
`wrappedFilterEngine` (the flag tells whether it still holds the filter engine). -/
structure Runtime where
  jsEngine : JsEngine
  wrappedFilterEngine : Bool
  deriving DecidableEq, Repr

/-- The lambda registered under `_init`. -/
def initHandler (rt : Runtime) (_params : JsValueList) : Runtime × List Effect × Outcome :=
  let uniqueFilterEngine := rt.wrappedFilterEngine
  ({ jsEngine := rt.jsEngine.RemoveEventCallback "_init", wrappedFilterEngine := false },
    [Effect.onCreated uniqueFilterEngine], Outcome.returned)

/-- The name of the event that `SetFilterChangeCallback` registers its handler under. -/
def filterChangeEvent : String := "filterChange"

/-- Modelled from the spec: the handler installed by
`DefaultFilterEngine::SetFilterChangeCallback` (not among the sources at hand) calls the
change-notification callback with the reason string of the event; the callback given by
`CreateAsync` calls `NotifyLowMemory` when the reason is `save`. -/
def filterChangeHandler (rt : Runtime) (params : JsValueList) :
    Runtime × List Effect × Outcome :=
  let reason : String := if (params.at 0).IsString then (params.at 0).AsString else ""
  (rt, if reason = "save" then [Effect.notifyLowMemory] else [], Outcome.returned)

/-- Running a registered closure. -/
def EventCallback.run (NDEBUG : Bool) (cb : EventCallback) (rt : Runtime)
    (params : JsValueList) : Runtime × List Effect × Outcome :=
  match cb with
  | EventCallback.isSubscriptionDownloadAllowed hasCallback =>
    let r := isSubscriptionDownloadAllowedHandler NDEBUG hasCallback rt.jsEngine params
    ({ rt with jsEngine := r.1 }, r.2.1, r.2.2)
  | EventCallback.init => initHandler rt params
  | EventCallback.filterChange => filterChangeHandler rt params

/-- Modelled from the spec: dispatch of a script-triggered event (section 4.4); runs the
handler registered under the name and is a no-op if there is none. -/
def TriggerEvent (NDEBUG : Bool) (rt : Runtime) (name : String) (params : JsValueList) :
    Runtime × List Effect × Outcome :=
  match rt.jsEngine.eventCallbacks.lookup name with
  | none => (rt, [], Outcome.returned)
  | some cb => cb.run NDEBUG rt params

/-- A sequence of script-triggered events, dispatched one after the other; a dispatch
that does not return ends the run. -/
def TriggerEvents (NDEBUG : Bool) (rt : Runtime) :
    List (String × JsValueList) → Runtime × List Effect × Outcome
  | [] => (rt, [], Outcome.returned)
  | ev :: rest =>
    match TriggerEvent NDEBUG rt ev.1 ev.2 with
    | (rt1, trace1, Outcome.returned) =>
      let r := TriggerEvents NDEBUG rt1 rest
      (r.1, trace1 ++ r.2.1, r.2.2)
    | (rt1, trace1, outcome) => (rt1, trace1, outcome)

/-- Modelled from the spec: `Utils::SplitString(str, delimiter)` (not among the sources
at hand), the list of the delimiter-separated components of `str`. -/
def SplitString : List Char → Char → List (List Char)
  | [], _ => [[]]
  | c :: cs, delimiter =>
    if c = delimiter then [] :: SplitString cs delimiter
    else
      match SplitString cs delimiter with
      | [] => [[c]]
      | first :: others => (c :: first) :: others

/-- The `struct CreationParameters`: the preconfigured preferences in the order of the
map, and whether `isSubscriptionDownloadAllowedCallback` is non-empty. -/
structure CreationParameters where
  preconfiguredPrefs : List (String × JsValue)
  isSubscriptionDownloadAllowedCallback : Bool
  deriving DecidableEq, Repr

/-- Modelled from the spec: `SetProperty(name, value)` on an object given by its
properties. -/
def SetProperty (object : List (String × JsValue)) (name : String) (value : JsValue) :
    List (String × JsValue) :=
  object.filter (fun p => p.1 != name) ++ [(name, value)]

/-- The loop `for (const auto& filterEngineJsFile : jsFiles)` of `CreateAsync`. -/
def evaluateScripts : List (List Char) → List Effect × Outcome
  | [] => ([], Outcome.returned)
  | filterEngineJsFile :: rest =>
    let filepathComponents := SplitString filterEngineJsFile '/'
    match filepathComponents.getLast? with
    | none => ([], Outcome.backOfEmpty)
    | some back =>
      let r := evaluateScripts rest
      (Effect.evaluateCallback back :: r.1, r.2)

/-- The function `FilterEngineFactory::CreateAsync`. `ABP_SCRIPT_FILES` is the value of
the macro of that name, which the build defines. -/
def CreateAsync (ABP_SCRIPT_FILES : List Char) (jsEngine : JsEngine)
    (params : CreationParameters) : Runtime × List Effect × Outcome :=
  let jsEngine1 := jsEngine.SetEventCallback "_isSubscriptionDownloadAllowed"
    (EventCallback.isSubscriptionDownloadAllowed params.isSubscriptionDownloadAllowedCallback)
  let jsEngine2 := jsEngine1.SetEventCallback "_init" EventCallback.init
  let jsEngine3 := jsEngine2.SetEventCallback filterChangeEvent EventCallback.filterChange
  let preconfiguredPrefsObject :=
    params.preconfiguredPrefs.foldl (fun object pref => SetProperty object pref.1 pref.2) []
  let jsFiles := SplitString ABP_SCRIPT_FILES ' '
  let evaluated := evaluateScripts jsFiles
  ({ jsEngine := jsEngine3, wrappedFilterEngine := true },
    Effect.setGlobalProperty "_preconfiguredPrefs" preconfiguredPrefsObject :: evaluated.1,
    evaluated.2)

/-- The number of calls of `onCreated` in a trace. -/
def onCreatedCalls (trace : List Effect) : Nat :=
  trace.countP (fun e => match e with
    | Effect.onCreated _ => true
    | _ => false)

/-- The arguments of the calls of `evaluateCallback` in a trace, in order. -/
def evaluatedFiles (trace : List Effect) : List (List Char) :=
  trace.filterMap (fun e => match e with
    | Effect.evaluateCallback f => some f
    | _ => none)

/-- The last `/`-separated component of a path: the text after its last `/`, or the whole
path when it has none. -/
def lastComponent (path : List Char) : List Char :=
  (path.reverse.takeWhile (fun c => c != '/')).reverse

/-- A fresh engine: no callback registered, no values stored. -/
def JsEngine.new : JsEngine :=
  { eventCallbacks := [], jsValues := [], nextValuesID := 0 }

/-- The connection type that the handler hands to the policy callback for a first
argument `p0`: its string when it is a string, absent otherwise. -/
def connectionTypeOf (p0 : JsValue) : Option String :=
  match p0 with
  | JsValue.string s => some s
  | _ => none

/-- The engine without the entries of the Async Value Table under `key`. -/
def JsEngine.withoutValues (jsEngine : JsEngine) (key : Nat) : JsEngine :=
  { jsEngine with jsValues := jsEngine.jsValues.filter (fun p => p.1 != key) }

/-- No registered callback is the `_init` closure. -/
def noInitCallback (registry : List (String × EventCallback)) : Prop :=
  ∀ p ∈ registry, p.2 ≠ EventCallback.init

instance (registry : List (String × EventCallback)) : Decidable (noInitCallback registry) := by
  unfold noInitCallback
  infer_instance

/-- The `_init` closure is registered under `_init` and nowhere else, and the wrapped
pointer still holds the filter engine. -/
def Runtime.armed (rt : Runtime) : Prop :=
  rt.wrappedFilterEngine = true ∧
  rt.jsEngine.eventCallbacks.lookup "_init" = some EventCallback.init ∧
  ∀ p ∈ rt.jsEngine.eventCallbacks, p.2 = EventCallback.init → p.1 = "_init"

/-- A sequence of events that exercises every handler. -/
def sampleEvents : List (String × JsValueList) :=
  [("_isSubscriptionDownloadAllowed", [JsValue.null, JsValue.function 1]),
    ("_init", []), ("other", []), ("_init", [JsValue.bool true]),
    ("filterChange", [JsValue.string "save"])]

/-- A list of entries written as one text, the entries separated by `separator`. -/
def joinWith (separator : Char) : List (List Char) → List Char
  | [] => []
  | [entry] => entry
  | entry :: more => entry ++ separator :: joinWith separator more

/-- A line has the form of a status line when it is `HTTP/1.`, one digit, one whitespace
character, any number of further whitespace characters, one or more digits, and one
whitespace character, followed by anything. -/
def isStatusForm (line : List Char) : Prop :=
  ∃ (minor w : Char) (ws digits : List Char) (w2 : Char) (rest : List Char),
    line = statusLead ++ minor :: w :: (ws ++ (digits ++ w2 :: rest)) ∧
    isdigit minor = true ∧ isspace w = true ∧ (∀ c ∈ ws, isspace c = true) ∧
    digits ≠ [] ∧ (∀ c ∈ digits, isdigit c = true) ∧ isspace w2 = true

/-- A stream whose first line is `HTTP/2 200`. -/
def http2Stream : List (List Char) :=
  ["HTTP/2 200".toList, "Content-Type: text/html".toList, []]

/-- A stream whose first line is `HTTP/1.1 200` with nothing after the code. -/
def bareCodeStream : List (List Char) :=
  ["HTTP/1.1 200".toList, "Content-Type: text/html".toList, []]

end AdblockPlus

namespace AdblockPlus

/-! ## Lemmas on scanning -/

theorem isspace_of_isdigit {c : Char} (h : isdigit c = true) : isspace c = false := by
  cases hs : isspace c with
  | false => rfl
  | true =>
    exfalso
    simp only [isspace, Bool.or_eq_true, decide_eq_true_eq] at hs
    simp only [isdigit, Bool.and_eq_true, decide_eq_true_eq] at h
    rcases hs with ((((hs | hs) | hs) | hs) | hs) | hs <;> subst hs <;> revert h <;> decide

theorem takeWhile_all_append {p : Char → Bool} (xs ys : List Char)
    (h : ∀ c ∈ xs, p c = true) : (xs ++ ys).takeWhile p = xs ++ ys.takeWhile p := by
  induction xs with
  | nil => rfl
  | cons x xs ih =>
    have hx : p x = true := h x (List.mem_cons_self _ _)
    simp [List.takeWhile_cons, hx, ih (fun c hc => h c (List.mem_cons_of_mem _ hc))]

theorem takeWhile_eq_self {p : Char → Bool} (xs : List Char)
    (h : ∀ c ∈ xs, p c = true) : xs.takeWhile p = xs := by
  have := takeWhile_all_append (p := p) xs [] h
  simpa using this

theorem dropWhile_eq_nil_of_all {p : Char → Bool} (xs : List Char)
    (h : ∀ c ∈ xs, p c = true) : xs.dropWhile p = [] := by
  induction xs with
  | nil => rfl
  | cons x xs ih =>
    have hx : p x = true := h x (List.mem_cons_self _ _)
    simp [List.dropWhile_cons, hx, ih (fun c hc => h c (List.mem_cons_of_mem _ hc))]

theorem length_takeWhile_add_dropWhile (p : Char → Bool) (xs : List Char) :
    (xs.takeWhile p).length + (xs.dropWhile p).length = xs.length := by
  have h := congrArg List.length (List.takeWhile_append_dropWhile p xs)
  rw [List.length_append] at h
  exact h

/-- The backward scan from the end of a line stops at the length of the line with its
trailing whitespace removed. -/
theorem scanBackward_full (s : List Char) :
    scanBackward isspace s 0 s.length = (trimEnd s).length := by
  have h := length_takeWhile_add_dropWhile isspace s.reverse
  simp only [scanBackward, trimEnd, List.take_length, List.drop_zero, List.length_reverse] at *
  omega

theorem take_length_trimEnd (s : List Char) : s.take (trimEnd s).length = trimEnd s := by
  have h : s = trimEnd s ++ (s.reverse.takeWhile isspace).reverse := by
    have h1 := congrArg List.reverse (List.takeWhile_append_dropWhile isspace s.reverse)
    rw [List.reverse_append, List.reverse_reverse] at h1
    exact h1.symm
  calc s.take (trimEnd s).length
      = (trimEnd s ++ (s.reverse.takeWhile isspace).reverse).take (trimEnd s).length := by
        rw [← h]
    _ = trimEnd s := List.take_left' rfl

theorem trimEnd_eq_nil_iff (s : List Char) : trimEnd s = [] ↔ isBlank s = true := by
  simp only [trimEnd, List.reverse_eq_nil_iff, List.dropWhile_eq_nil_iff, isBlank,
    List.all_eq_true, List.mem_reverse]

/-! ## Lemmas on `ReceiveHeader` -/

/-- A line that is not blank, received while no status line is expected, is stored without
its trailing whitespace. -/
theorem ReceiveHeader_header (d : HeaderData) (h : List Char)
    (hd : d.expectingStatus = false) (hb : isBlank h = false) :
    ReceiveHeader d h = { d with headers := d.headers ++ [trimEnd h] } := by
  have hne : trimEnd h ≠ [] := by
    intro hnil
    rw [trimEnd_eq_nil_iff] at hnil
    rw [hnil] at hb
    exact Bool.noConfusion hb
  have hlen : (trimEnd h).length ≠ 0 := by
    intro h0
    exact hne (List.length_eq_zero.mp h0)
  simp only [ReceiveHeader, hd, scanBackward_full, substr, List.drop_zero,
    take_length_trimEnd]
  simp [hlen]

/-- A blank line, received while no status line is expected, re-arms the expectation of a
status line and changes nothing else. -/
theorem ReceiveHeader_blank (d : HeaderData) (h : List Char)
    (hd : d.expectingStatus = false) (hb : isBlank h = true) :
    ReceiveHeader d h = { d with expectingStatus := true } := by
  have hnil : trimEnd h = [] := (trimEnd_eq_nil_iff h).mpr hb
  simp only [ReceiveHeader, hd, scanBackward_full, hnil]
  simp

/-- The header callback on a line `HTTP/1.<minor> <rest>` whose `rest` starts with the
digits `code` followed by a space. -/
theorem ReceiveHeader_status_aux (d : HeaderData) (minor : Char) (code rest : List Char)
    (hd : d.expectingStatus = true) (hm : isdigit minor = true)
    (h1 : rest.takeWhile isspace = []) (h2 : rest.takeWhile isdigit = code)
    (h3 : code ≠ []) (h4 : code.length < rest.length)
    (h5 : isspace (rest.getD code.length (Char.ofNat 0)) = true)
    (h6 : rest.take code.length = code) :
    ReceiveHeader d ('H' :: 'T' :: 'T' :: 'P' :: '/' :: '1' :: '.' :: minor :: ' ' :: rest) =
      { status := extractInt code, expectingStatus := false, headers := [] } := by
  have hsp : isspace ' ' = true := by decide
  have hpos : 0 < code.length := List.length_pos.mpr h3
  have hget : charAt ('H' :: 'T' :: 'T' :: 'P' :: '/' :: '1' :: '.' :: minor :: ' ' :: rest)
      (9 + code.length) = rest.getD code.length (Char.ofNat 0) := by
    have : 9 + code.length = code.length + 1 + 1 + 1 + 1 + 1 + 1 + 1 + 1 + 1 := by omega
    rw [this]
    simp only [charAt, List.getD_cons_succ]
  simp only [ReceiveHeader, hd, statusLead, substr, scanForward, List.length_cons,
    List.drop_succ_cons, List.drop_zero, List.take_succ_cons, List.take_zero, h1, h2,
    List.length_nil, Nat.add_zero, hget, h5]
  have hc7 : charAt ('H' :: 'T' :: 'T' :: 'P' :: '/' :: '1' :: '.' :: minor :: ' ' :: rest)
      7 = minor := rfl
  have hc8 : charAt ('H' :: 'T' :: 'T' :: 'P' :: '/' :: '1' :: '.' :: minor :: ' ' :: rest)
      8 = ' ' := rfl
  have e1 : 9 + code.length - 9 = code.length := by omega
  simp only [List.length_nil, Nat.zero_add, hc7, hc8, hm, hsp, e1, h6]
  have hl : decide (rest.length + 1 + 1 + 1 + 1 + 1 + 1 + 1 + 1 + 1 ≥ 7 + 2) = true := by
    simp
  have hgt : decide (9 + code.length > 9) = true := by
    simp [hpos]
  have hlt : decide (9 + code.length < rest.length + 1 + 1 + 1 + 1 + 1 + 1 + 1 + 1 + 1)
      = true := by
    simp
    omega
  simp [hl, hgt, hlt, h3]

/-- A well-formed status line, received while a status line is expected, sets the status
to the extracted code, empties the stored lines and ends the expectation. -/
theorem ReceiveHeader_status (d : HeaderData) (minor : Char) (code reason : List Char)
    (hd : d.expectingStatus = true) (hw : wellFormedStatus minor code) :
    ReceiveHeader d (statusLine minor code reason) =
      { status := extractInt code, expectingStatus := false, headers := [] } := by
  obtain ⟨hm, hne, hdig⟩ := hw
  have hnd : isdigit ' ' = false := by decide
  have hsp : isspace ' ' = true := by decide
  have hline : statusLine minor code reason =
      'H' :: 'T' :: 'T' :: 'P' :: '/' :: '1' :: '.' :: minor :: ' ' ::
        (code ++ ' ' :: reason) := by
    simp [statusLine, statusLead]
  rw [hline]
  apply ReceiveHeader_status_aux d minor code (code ++ ' ' :: reason) hd hm
  · obtain ⟨c0, cs, rfl⟩ := List.exists_cons_of_ne_nil hne
    have hs0 : isspace c0 = false :=
      isspace_of_isdigit (hdig c0 (List.mem_cons_self _ _))
    simp [List.takeWhile_cons, hs0]
  · rw [takeWhile_all_append _ _ hdig]
    simp [List.takeWhile_cons, hnd]
  · exact hne
  · simp
  · have hg : (code ++ ' ' :: reason).getD code.length (Char.ofNat 0) = ' ' := by
      rw [List.getD_eq_getElem?_getD, List.getElem?_append_right (Nat.le_refl _)]
      simp
    rw [hg]
    exact hsp
  · simp

/-- Header lines received after a status line are stored in order, each without its
trailing whitespace. -/
theorem foldl_ReceiveHeader_headers (hs : List (List Char)) (st : Int)
    (acc : List (List Char)) (hnb : ∀ h ∈ hs, isBlank h = false) :
    hs.foldl ReceiveHeader { status := st, expectingStatus := false, headers := acc } =
      { status := st, expectingStatus := false, headers := acc ++ hs.map trimEnd } := by
  induction hs generalizing acc with
  | nil => simp
  | cons h hs ih =>
    rw [List.foldl_cons, ReceiveHeader_header _ h rfl (hnb h (List.mem_cons_self _ _))]
    rw [ih _ (fun x hx => hnb x (List.mem_cons_of_mem _ hx))]
    simp

/-- One whole block, received while a status line is expected, leaves the code and the
header lines of that block, and a status line is expected again. -/
theorem foldl_ReceiveHeader_block (d : HeaderData) (b : HeaderBlock)
    (hd : d.expectingStatus = true) (hw : b.wellFormed) :
    b.lines.foldl ReceiveHeader d =
      { status := extractInt b.code, expectingStatus := true,
        headers := b.headers.map trimEnd } := by
  obtain ⟨hs, hh, hb⟩ := hw
  rw [HeaderBlock.lines, List.foldl_cons, ReceiveHeader_status d _ _ _ hd hs,
    List.foldl_append, foldl_ReceiveHeader_headers _ _ _ hh]
  simp only [List.foldl_cons, List.foldl_nil, List.nil_append]
  rw [ReceiveHeader_blank _ _ rfl hb]

/-- After any number of whole blocks a status line is expected. -/
theorem foldl_ReceiveHeader_stream_expecting (blocks : List HeaderBlock) (d : HeaderData)
    (hd : d.expectingStatus = true) (hw : ∀ b ∈ blocks, b.wellFormed) :
    ((streamOf blocks).foldl ReceiveHeader d).expectingStatus = true := by
  induction blocks generalizing d with
  | nil => simpa [streamOf] using hd
  | cons b bs ih =>
    have hb := foldl_ReceiveHeader_block d b hd (hw b (List.mem_cons_self _ _))
    have : streamOf (b :: bs) = b.lines ++ streamOf bs := by simp [streamOf]
    rw [this, List.foldl_append, hb]
    exact ih _ rfl (fun x hx => hw x (List.mem_cons_of_mem _ hx))

/-- After a stream of whole blocks only the last block is left in the `HeaderData`. -/
theorem foldl_ReceiveHeader_stream (blocks : List HeaderBlock) (last : HeaderBlock)
    (hw : ∀ b ∈ blocks ++ [last], b.wellFormed) :
    (streamOf (blocks ++ [last])).foldl ReceiveHeader HeaderData.new =
      { status := extractInt last.code, expectingStatus := true,
        headers := last.headers.map trimEnd } := by
  have hsplit : streamOf (blocks ++ [last]) = streamOf blocks ++ last.lines := by
    simp [streamOf]
  rw [hsplit, List.foldl_append]
  apply foldl_ReceiveHeader_block
  · exact foldl_ReceiveHeader_stream_expecting blocks _ rfl
      (fun b hb => hw b (List.mem_append_left _ hb))
  · exact hw last (by simp)

/-- The header loop pushes, in order, the pairs of the lines that yield one. -/
theorem headerLoop_eq_filterMap (acc : List (List Char × List Char))
    (hs : List (List Char)) :
    headerLoop acc hs = acc ++ hs.filterMap parseHeaderLine := by
  induction hs generalizing acc with
  | nil => simp [headerLoop]
  | cons h hs ih =>
    have hstep : headerLoop acc (h :: hs) =
        headerLoop (match parseHeaderLine h with
          | some p => acc ++ [p]
          | none => acc) hs := by
      simp [headerLoop]
    rw [hstep, ih]
    cases hp : parseHeaderLine h with
    | none => simp [List.filterMap_cons, hp]
    | some p => simp [List.filterMap_cons, hp]

theorem extractInt_of_fits (code : List Char) (h : (decimalValue code : Int) ≤ INT_MAX) :
    extractInt code = decimalValue code := by
  simp [extractInt, h]

/-! ## Lemmas on the header loop -/

theorem trimEnd_eq_rdropWhile (s : List Char) : trimEnd s = s.rdropWhile isspace := rfl

theorem trimEnd_idempotent (s : List Char) : trimEnd (trimEnd s) = trimEnd s := by
  simp [trimEnd, List.dropWhile_idempotent]

/-- A text without trailing whitespace has no suffix with trailing whitespace. -/
theorem trimEnd_suffix (xs ys : List Char) (h : trimEnd (xs ++ ys) = xs ++ ys) :
    trimEnd ys = ys := by
  rw [trimEnd_eq_rdropWhile, List.rdropWhile_eq_self_iff] at *
  intro hne
  have h1 := h (by simp [hne])
  rwa [List.getLast_append_of_ne_nil hne] at h1

/-- A line with a colon is the text before its first colon, the colon, and the text
after it. -/
theorem split_at_colon (line : List Char) (h : ':' ∈ line) :
    line = beforeColon line ++ ':' :: afterColon line := by
  induction line with
  | nil => simp at h
  | cons c cs ih =>
    by_cases hc : c = ':'
    · subst hc
      simp [beforeColon, afterColon, List.takeWhile_cons, List.dropWhile_cons]
    · have hmem : ':' ∈ cs := by
        rcases List.mem_cons.mp h with h1 | h1
        · exact absurd h1.symm hc
        · exact h1
      have ih1 := ih hmem
      simp only [beforeColon, afterColon, List.takeWhile_cons, List.dropWhile_cons, bne_iff_ne,
        ne_eq, hc, not_false_eq_true, decide_True, ite_true, List.cons_append] at ih1 ⊢
      exact congrArg _ ih1

theorem colon_not_mem_beforeColon (line : List Char) : ':' ∉ beforeColon line := by
  intro h
  have := List.mem_takeWhile_imp h
  simp at this

/-- The loop body on a line given as the text before its first colon, the colon, and the
text after it. -/
theorem parseHeaderLine_split (bc ac : List Char) (h : ':' ∉ bc) :
    parseHeaderLine (bc ++ ':' :: ac) =
      if trimEnd bc ≠ [] ∧ trimStart ac ≠ [] then
        some ((trimEnd bc).map tolower, trimStart ac)
      else none := by
  have hfind : find (bc ++ ':' :: ac) ':' = some bc.length := by
    simp [find, List.indexOf_append_of_not_mem h]
  have hback : scanBackward isspace (bc ++ ':' :: ac) 0 bc.length = (trimEnd bc).length := by
    have := scanBackward_full bc
    simpa [scanBackward] using this
  have hlen := length_takeWhile_add_dropWhile isspace ac
  have hle : (trimEnd bc).length ≤ bc.length := by
    have := length_takeWhile_add_dropWhile isspace bc.reverse
    simp only [trimEnd, List.length_reverse] at *
    omega
  have hname : substr (bc ++ ':' :: ac) 0 ((trimEnd bc).length - 0) = trimEnd bc := by
    simp only [substr, List.drop_zero, Nat.sub_zero]
    rw [List.take_append_of_le_length hle]
    exact take_length_trimEnd bc
  have hdrop : (bc ++ ':' :: ac).drop (bc.length + 1) = ac := by
    rw [List.drop_append_eq_append_drop]
    simp
  have hfwd : scanForward isspace (bc ++ ':' :: ac) (bc.length + 1) =
      bc.length + 1 + (ac.takeWhile isspace).length := by
    simp only [scanForward, hdrop]
  have hvalue : substr (bc ++ ':' :: ac) (bc.length + 1 + (ac.takeWhile isspace).length)
      ((bc ++ ':' :: ac).length - (bc.length + 1 + (ac.takeWhile isspace).length)) =
      trimStart ac := by
    simp only [substr]
    rw [← List.drop_drop, hdrop]
    have hd : ac.drop (ac.takeWhile isspace).length = ac.dropWhile isspace := by
      have h0 := List.drop_left (ac.takeWhile isspace) (ac.dropWhile isspace)
      rwa [List.takeWhile_append_dropWhile] at h0
    rw [hd]
    apply List.take_of_length_le
    simp only [List.length_append, List.length_cons]
    omega
  have hne1 : (trimEnd bc).length > 0 ↔ trimEnd bc ≠ [] := List.length_pos
  have hne2 : (bc ++ ':' :: ac).length > bc.length + 1 + (ac.takeWhile isspace).length ↔
      trimStart ac ≠ [] := by
    rw [← List.length_pos]
    simp only [trimStart, List.length_append, List.length_cons]
    omega
  simp only [parseHeaderLine, hfind, hback, hfwd, hname, hvalue, Bool.and_eq_true,
    decide_eq_true_eq, hne1, hne2]

/-- The loop body on a line with a colon. -/
theorem parseHeaderLine_of_colon (line : List Char) (h : ':' ∈ line) :
    parseHeaderLine line =
      if trimEnd (beforeColon line) ≠ [] ∧ trimStart (afterColon line) ≠ [] then
        some ((trimEnd (beforeColon line)).map tolower, trimStart (afterColon line))
      else none := by
  conv_lhs => rw [split_at_colon line h]
  exact parseHeaderLine_split _ _ (colon_not_mem_beforeColon line)

theorem parseHeaderLine_of_no_colon (line : List Char) (h : ':' ∉ line) :
    parseHeaderLine line = none := by
  simp [parseHeaderLine, find, h]

theorem trimStart_eq_nil_iff (s : List Char) : trimStart s = [] ↔ isBlank s = true := by
  simp only [trimStart, List.dropWhile_eq_nil_iff, isBlank, List.all_eq_true]

theorem trimBoth_eq_nil_iff (s : List Char) : trimBoth s = [] ↔ isBlank s = true := by
  rw [trimBoth, trimEnd_eq_nil_iff, ← trimStart_eq_nil_iff, ← trimStart_eq_nil_iff]
  simp only [trimStart, List.dropWhile_idempotent]

/-- A malformed line yields no pair. -/
theorem parseHeaderLine_of_malformed (line : List Char) (h : isMalformed line) :
    parseHeaderLine line = none := by
  by_cases hc : ':' ∈ line
  · rw [parseHeaderLine_of_colon line hc]
    rcases h with h | h | h
    · exact absurd hc h
    · simp [(trimEnd_eq_nil_iff _).mpr h]
    · simp [(trimStart_eq_nil_iff _).mpr h]
  · exact parseHeaderLine_of_no_colon line hc

/-- Every line that `ReceiveHeader` leaves stored was stored before or is the received
line without its trailing whitespace. -/
theorem ReceiveHeader_headers_mem (d : HeaderData) (line h : List Char)
    (hm : h ∈ (ReceiveHeader d line).headers) : h ∈ d.headers ∨ h = trimEnd line := by
  cases he : d.expectingStatus with
  | true =>
    simp only [ReceiveHeader, he, if_true] at hm
    split at hm
    · split at hm
      · exact absurd hm (List.not_mem_nil _)
      · exact Or.inl hm
    · exact Or.inl hm
  | false =>
    simp only [ReceiveHeader, he, scanBackward_full, substr, List.drop_zero,
      take_length_trimEnd] at hm
    by_cases hz : (trimEnd line).length ≠ 0
    · rw [if_pos hz] at hm
      have hm1 : h ∈ d.headers ++ [trimEnd line] := hm
      rw [List.mem_append, List.mem_singleton] at hm1
      exact hm1
    · rw [if_neg hz] at hm
      exact Or.inl hm

/-- No line stored by a run of `ReceiveHeader` ends in whitespace. -/
theorem stored_lines_trimmed (lines : List (List Char)) (d : HeaderData)
    (hd : ∀ h ∈ d.headers, trimEnd h = h) :
    ∀ h ∈ (lines.foldl ReceiveHeader d).headers, trimEnd h = h := by
  induction lines generalizing d with
  | nil => simpa using hd
  | cons l ls ih =>
    rw [List.foldl_cons]
    apply ih
    intro h hm
    rcases ReceiveHeader_headers_mem d l h hm with h1 | h1
    · exact hd h h1
    · rw [h1]
      exact trimEnd_idempotent l

/-! ## Result-code translation -/

/-- C1: `ConvertErrorCode` is a total function of the transport result code. With the
`IWebRequest` enumerators being `unsigned int` values, each of the thirteen listed codes
maps to its listed value, and every other code `c` maps to `NS_CUSTOM_ERROR_BASE + c`
in unsigned 32-bit arithmetic. -/
theorem C1_ConvertErrorCode_table (ns : IWebRequest) (h : ns.fitsUnsigned) :
    ConvertErrorCode ns CURLE_OK = ns.NS_OK ∧
    ConvertErrorCode ns CURLE_FAILED_INIT = ns.NS_ERROR_NOT_INITIALIZED ∧
    ConvertErrorCode ns CURLE_UNSUPPORTED_PROTOCOL = ns.NS_ERROR_UNKNOWN_PROTOCOL ∧
    ConvertErrorCode ns CURLE_URL_MALFORMAT = ns.NS_ERROR_MALFORMED_URI ∧
    ConvertErrorCode ns CURLE_COULDNT_RESOLVE_PROXY = ns.NS_ERROR_UNKNOWN_PROXY_HOST ∧
    ConvertErrorCode ns CURLE_COULDNT_RESOLVE_HOST = ns.NS_ERROR_UNKNOWN_HOST ∧
    ConvertErrorCode ns CURLE_COULDNT_CONNECT = ns.NS_ERROR_CONNECTION_REFUSED ∧
    ConvertErrorCode ns CURLE_OUT_OF_MEMORY = ns.NS_ERROR_OUT_OF_MEMORY ∧
    ConvertErrorCode ns CURLE_OPERATION_TIMEDOUT = ns.NS_ERROR_NET_TIMEOUT ∧
    ConvertErrorCode ns CURLE_TOO_MANY_REDIRECTS = ns.NS_ERROR_REDIRECT_LOOP ∧
    ConvertErrorCode ns CURLE_GOT_NOTHING = ns.NS_ERROR_NO_CONTENT ∧
    ConvertErrorCode ns CURLE_SEND_ERROR = ns.NS_ERROR_NET_RESET ∧
    ConvertErrorCode ns CURLE_RECV_ERROR = ns.NS_ERROR_NET_RESET ∧
    ∀ c : Nat,
      c ∉ [CURLE_OK, CURLE_FAILED_INIT, CURLE_UNSUPPORTED_PROTOCOL, CURLE_URL_MALFORMAT,
        CURLE_COULDNT_RESOLVE_PROXY, CURLE_COULDNT_RESOLVE_HOST, CURLE_COULDNT_CONNECT,
        CURLE_OUT_OF_MEMORY, CURLE_OPERATION_TIMEDOUT, CURLE_TOO_MANY_REDIRECTS,
        CURLE_GOT_NOTHING, CURLE_SEND_ERROR, CURLE_RECV_ERROR] →
      ConvertErrorCode ns c = (ns.NS_CUSTOM_ERROR_BASE + c) % 2 ^ 32 := by
  obtain ⟨h1, h2, h3, h4, h5, h6, h7, h8, h9, h10, h11, h12, _⟩ := h
  refine ⟨?_, ?_, ?_, ?_, ?_, ?_, ?_, ?_, ?_, ?_, ?_, ?_, ?_, ?_⟩
  all_goals first
    | (simp only [ConvertErrorCode, toUnsigned, CURLE_OK, CURLE_FAILED_INIT,
        CURLE_UNSUPPORTED_PROTOCOL, CURLE_URL_MALFORMAT, CURLE_COULDNT_RESOLVE_PROXY,
        CURLE_COULDNT_RESOLVE_HOST, CURLE_COULDNT_CONNECT, CURLE_OUT_OF_MEMORY,
        CURLE_OPERATION_TIMEDOUT, CURLE_TOO_MANY_REDIRECTS, CURLE_GOT_NOTHING,
        CURLE_SEND_ERROR, CURLE_RECV_ERROR]
       simp
       omega)
    | (intro c hc
       simp only [List.mem_cons, List.mem_singleton, List.not_mem_nil, not_or,
         or_false] at hc
       obtain ⟨a1, a2, a3, a4, a5, a6, a7, a8, a9, a10, a11, a12, a13⟩ := hc
       simp [ConvertErrorCode, toUnsigned, a1, a2, a3, a4, a5, a6, a7, a8, a9, a10, a11,
         a12, a13])

/-- Witness of C1 at the sample enumerator values: the unlisted code 9 lands in the custom
bucket, and the listed code `CURLE_GOT_NOTHING` on its listed value. -/
theorem C1_ConvertErrorCode_table_witness :
    sampleCodes.fitsUnsigned ∧ ConvertErrorCode sampleCodes 9 = 0x80850009 ∧
      ConvertErrorCode sampleCodes CURLE_GOT_NOTHING = 0x804b0011 :=
  ⟨by decide,
    ((C1_ConvertErrorCode_table sampleCodes (by decide)).2.2.2.2.2.2.2.2.2.2.2.2.2 9
      (by decide)).trans (by decide),
    (C1_ConvertErrorCode_table sampleCodes (by decide)).2.2.2.2.2.2.2.2.2.2.1.trans
      (by decide)⟩

/-! ## Header streams -/

/-- C2 (as amended): for a raw header stream made of one or more well-formed blocks, when
the code of the last block fits an `int`, `GET` surfaces the status code of the last
block and the pairs parsed from the header lines of the last block only; and a further
status line whose code fits sets the status to that code and empties the stored lines. -/
theorem C2_last_block_surfaced (ns : IWebRequest) (curl : Curl) (url : List Char)
    (requestHeaders : List (List Char × List Char)) (blocks : List HeaderBlock)
    (last : HeaderBlock)
    (hstream : (curl (getOptions url requestHeaders)).headerLines = streamOf (blocks ++ [last]))
    (hwf : ∀ b ∈ blocks ++ [last], b.wellFormed)
    (hfit : (decimalValue last.code : Int) ≤ INT_MAX) :
    (GET ns (some curl) url requestHeaders).responseStatus = decimalValue last.code ∧
    (GET ns (some curl) url requestHeaders).responseHeaders =
      (last.headers.map trimEnd).filterMap parseHeaderLine ∧
    ∀ (minor : Char) (code reason : List Char), wellFormedStatus minor code →
      (decimalValue code : Int) ≤ INT_MAX →
      ReceiveHeader ((streamOf (blocks ++ [last])).foldl ReceiveHeader HeaderData.new)
          (statusLine minor code reason) =
        { status := decimalValue code, expectingStatus := false, headers := [] } := by
  have hfed := foldl_ReceiveHeader_stream blocks last hwf
  refine ⟨?_, ?_, ?_⟩
  · simp only [GET, fillResponse, hstream, hfed]
    exact extractInt_of_fits _ hfit
  · simp only [GET, fillResponse, hstream, hfed, headerLoop_eq_filterMap, List.nil_append]
  · intro minor code reason hw hf
    rw [hfed, ReceiveHeader_status _ _ _ _ rfl hw, extractInt_of_fits _ hf]

/-- Witness of C2: the lines `HTTP/1.1 200 OK`, `Content-Type: text/html` and the empty
line give status 200 and the one header `content-type: text/html`; a following
`HTTP/1.1 304 Not Modified` sets the status to 304 and empties the stored lines. -/
theorem C2_last_block_surfaced_witness :
    (∀ b ∈ [] ++ [sampleBlock], b.wellFormed) ∧
    (GET sampleCodes (some (sampleCurl (streamOf ([] ++ [sampleBlock])))) [] []).responseStatus
      = 200 ∧
    (GET sampleCodes (some (sampleCurl (streamOf ([] ++ [sampleBlock])))) [] []).responseHeaders
      = [("content-type".toList, "text/html".toList)] ∧
    ReceiveHeader ((streamOf ([] ++ [sampleBlock])).foldl ReceiveHeader HeaderData.new)
        "HTTP/1.1 304 Not Modified".toList =
      { status := 304, expectingStatus := false, headers := [] } :=
  have h := C2_last_block_surfaced sampleCodes (sampleCurl (streamOf ([] ++ [sampleBlock])))
    [] [] [] sampleBlock (by rfl) (by decide) (by decide)
  ⟨by decide, h.1.trans (by decide), h.2.1.trans (by decide),
    (h.2.2 '1' "304".toList "Not Modified".toList (by decide) (by decide)).trans (by decide)⟩

/-- C2 as stated fails when the digits of the status line exceed the range of `int`: the
stream `HTTP/1.1 99999999999 X`, empty line, is one well-formed block, and the status
surfaced is 2147483647, not the code of the block. -/
theorem C2_status_overflow_counterexample :
    overflowBlock.wellFormed ∧
    (GET sampleCodes (some (sampleCurl (streamOf [overflowBlock]))) [] []).responseStatus
      = 2147483647 ∧
    (GET sampleCodes (some (sampleCurl (streamOf [overflowBlock]))) [] []).responseStatus
      ≠ decimalValue overflowBlock.code := by
  decide

/-! ## The header loop -/

/-- C3 (as amended): every line stored by `ReceiveHeader` that has a colon is split by the
header loop at its first colon; the name surfaced is the text before that colon with
whitespace removed from its end only, in lower case, and the value is the text after the
colon with whitespace removed from both ends; the pair is surfaced exactly when the
trimmed name and the trimmed value are both non-empty. -/
theorem C3_header_line_pair (lines : List (List Char)) (h : List Char)
    (hstored : h ∈ (lines.foldl ReceiveHeader HeaderData.new).headers)
    (hcolon : ':' ∈ h) :
    h = beforeColon h ++ ':' :: afterColon h ∧ ':' ∉ beforeColon h ∧
    parseHeaderLine h =
      if trimBoth (beforeColon h) ≠ [] ∧ trimBoth (afterColon h) ≠ [] then
        some ((trimEnd (beforeColon h)).map tolower, trimBoth (afterColon h))
      else none := by
  have htrim : trimEnd h = h :=
    stored_lines_trimmed lines HeaderData.new (by simp [HeaderData.new]) h hstored
  have hsplit := split_at_colon h hcolon
  refine ⟨hsplit, colon_not_mem_beforeColon h, ?_⟩
  have hvalue : trimBoth (afterColon h) = trimStart (afterColon h) := by
    have hdecomp : h = (beforeColon h ++ ':' :: (afterColon h).takeWhile isspace) ++
        trimStart (afterColon h) := by
      conv_lhs => rw [hsplit]
      simp [trimStart, List.takeWhile_append_dropWhile]
    rw [hdecomp] at htrim
    exact trimEnd_suffix _ _ htrim
  have hname : trimBoth (beforeColon h) ≠ [] ↔ trimEnd (beforeColon h) ≠ [] := by
    rw [Ne, Ne, trimBoth_eq_nil_iff, trimEnd_eq_nil_iff]
  rw [parseHeaderLine_of_colon h hcolon, hvalue]
  simp only [hname]

/-- Witness of C3: the raw line ` Foo : Bar` followed by a carriage return and a line
feed, received after a status line, is stored and surfaced as the pair ` foo`, `Bar`. -/
theorem C3_header_line_pair_witness :
    " Foo : Bar".toList ∈
      (["HTTP/1.1 200 OK".toList, " Foo : Bar \r\n".toList].foldl ReceiveHeader
        HeaderData.new).headers ∧
    parseHeaderLine " Foo : Bar".toList = some (" foo".toList, "Bar".toList) :=
  ⟨by decide,
    (C3_header_line_pair ["HTTP/1.1 200 OK".toList, " Foo : Bar \r\n".toList]
      " Foo : Bar".toList (by decide) (by decide)).2.2.trans (by decide)⟩

/-- C3 as stated fails on a stored line that starts with whitespace: ` Foo: bar` is
stored by `ReceiveHeader`, has a colon, and is surfaced with the name ` foo`, which keeps
its leading space, not with the name trimmed at both ends. -/
theorem C3_leading_whitespace_counterexample :
    indentedLine ∈ (indentedStream.foldl ReceiveHeader HeaderData.new).headers ∧
    ':' ∈ indentedLine ∧
    parseHeaderLine indentedLine = some (" foo".toList, "bar".toList) ∧
    parseHeaderLine indentedLine ≠
      some ((trimBoth (beforeColon indentedLine)).map tolower,
        trimBoth (afterColon indentedLine)) := by
  decide

/-- C4: a malformed header line is dropped without affecting the other headers. For all
lists of stored lines `xs` and `ys` and every malformed line `m`, the header loop gives
the same pairs in the same order for `xs ++ [m] ++ ys` as for `xs ++ ys`, and the whole
response (status, protocol status, body, headers) built after the transfer is the same. -/
theorem C4_malformed_line_dropped (ns : IWebRequest) (code : Nat) (headerData : HeaderData)
    (responseText : List Char) (xs ys : List (List Char)) (m : List Char)
    (hm : isMalformed m) :
    headerLoop [] (xs ++ [m] ++ ys) = headerLoop [] (xs ++ ys) ∧
    headerLoop [] (xs ++ [m] ++ ys) = headerLoop [] xs ++ headerLoop [] ys ∧
    fillResponse ns code { headerData with headers := xs ++ [m] ++ ys } responseText =
      fillResponse ns code { headerData with headers := xs ++ ys } responseText := by
  have hnone := parseHeaderLine_of_malformed m hm
  have hloop : headerLoop [] (xs ++ [m] ++ ys) = headerLoop [] (xs ++ ys) := by
    simp [headerLoop_eq_filterMap, List.filterMap_append, hnone]
  refine ⟨hloop, ?_, ?_⟩
  · rw [hloop]
    simp [headerLoop_eq_filterMap, List.filterMap_append]
  · simp only [fillResponse, hloop]

/-- Witness of C4: the line `NoColonHere` between two good lines is dropped. -/
theorem C4_malformed_line_dropped_witness :
    isMalformed "NoColonHere".toList ∧
    headerLoop [] (["A: 1".toList] ++ ["NoColonHere".toList] ++ ["B: 2".toList]) =
      [("a".toList, "1".toList), ("b".toList, "2".toList)] :=
  ⟨by decide,
    (C4_malformed_line_dropped sampleCodes 0 HeaderData.new [] ["A: 1".toList]
      ["B: 2".toList] "NoColonHere".toList (by decide)).1.trans (by decide)⟩

/-- C5: when the transport handle cannot be obtained, `GET` and `HEAD` return a response
whose status is `NS_ERROR_NOT_INITIALIZED`, whose protocol status is 0 and whose body and
headers are empty, for every url and every list of request headers. -/
theorem C5_null_handle (ns : IWebRequest) (url : List Char)
    (requestHeaders : List (List Char × List Char)) :
    GET ns none url requestHeaders =
      { status := ns.NS_ERROR_NOT_INITIALIZED, responseStatus := 0, responseText := [],
        responseHeaders := [] } ∧
    HEAD ns none url requestHeaders =
      { status := ns.NS_ERROR_NOT_INITIALIZED, responseStatus := 0, responseText := [],
        responseHeaders := [] } :=
  ⟨rfl, rfl⟩

/-! ## The `_isSubscriptionDownloadAllowed` handler -/

theorem areArgumentsValid_pair (p0 f : JsValue)
    (hp0 : p0.IsNull = true ∨ p0.IsString = true) (hf : f.IsFunction = true) :
    areArgumentsValid [p0, f] = true := by
  rcases hp0 with h | h <;> simp [areArgumentsValid, JsValueList.at, h, hf]

theorem lookup_filter_ne (table : List (Nat × JsValueList)) (key : Nat) :
    (table.filter (fun p => p.1 != key)).lookup key = none := by
  induction table with
  | nil => rfl
  | cons p ps ih =>
    obtain ⟨k, v⟩ := p
    by_cases h : k = key
    · have hneg : ((k, v).1 != key) = false := by simp [h]
      rw [List.filter_cons, hneg]
      exact ih
    · have hpos : ((k, v).1 != key) = true := by simp [h]
      have hk : (key == k) = false := by
        simp only [beq_eq_false_iff_ne, ne_eq]
        exact fun hh => h hh.symm
      rw [List.filter_cons, hpos, if_pos rfl, List.lookup_cons, hk]
      exact ih

theorem connectionTypeOf_eq (p0 : JsValue) :
    (if p0.IsString then some (if p0.IsString then p0.AsString else "") else none) =
      connectionTypeOf p0 := by
  cases p0 <;> rfl

/-- C6: when no policy callback was supplied, the `_isSubscriptionDownloadAllowed` handler
answers "allowed": on every valid argument list `[p0, f]` it returns after the single
call `f(true)`, with the engine (and so the Async Value Table) unchanged; and this is the
handler that a trigger of the event reaches after `CreateAsync`. -/
theorem C6_default_answer_allowed (NDEBUG : Bool) (jsEngine : JsEngine) (p0 f : JsValue)
    (hp0 : p0.IsNull = true ∨ p0.IsString = true) (hf : f.IsFunction = true) :
    isSubscriptionDownloadAllowedHandler NDEBUG false jsEngine [p0, f] =
      (jsEngine, [Effect.call f [JsValue.bool true]], Outcome.returned) ∧
    ∀ (scripts : List Char) (prefs : List (String × JsValue)),
      TriggerEvent NDEBUG
          (CreateAsync scripts jsEngine
            { preconfiguredPrefs := prefs, isSubscriptionDownloadAllowedCallback := false }).1
          "_isSubscriptionDownloadAllowed" [p0, f] =
        ((CreateAsync scripts jsEngine
            { preconfiguredPrefs := prefs, isSubscriptionDownloadAllowedCallback := false }).1,
          [Effect.call f [JsValue.bool true]], Outcome.returned) := by
  have hv := areArgumentsValid_pair p0 f hp0 hf
  have hh : ∀ e : JsEngine, isSubscriptionDownloadAllowedHandler NDEBUG false e [p0, f] =
      (e, [Effect.call f [JsValue.bool true]], Outcome.returned) := by
    intro e
    simp [isSubscriptionDownloadAllowedHandler, hv, JsValueList.at]
  refine ⟨hh jsEngine, ?_⟩
  intro scripts prefs
  have hl : (CreateAsync scripts jsEngine
      { preconfiguredPrefs := prefs, isSubscriptionDownloadAllowedCallback := false }
      ).1.jsEngine.eventCallbacks.lookup "_isSubscriptionDownloadAllowed" =
      some (EventCallback.isSubscriptionDownloadAllowed false) := by
    simp [CreateAsync, JsEngine.SetEventCallback, filterChangeEvent, List.lookup_cons]
  simp only [TriggerEvent, hl, EventCallback.run, hh]

/-- Witness of C6: the argument list of a null and a function. -/
theorem C6_default_answer_allowed_witness :
    isSubscriptionDownloadAllowedHandler false false JsEngine.new
        [JsValue.null, JsValue.function 7] =
      (JsEngine.new, [Effect.call (JsValue.function 7) [JsValue.bool true]],
        Outcome.returned) :=
  (C6_default_answer_allowed false JsEngine.new JsValue.null (JsValue.function 7)
    (Or.inl rfl) rfl).1

/-- C7: when a policy callback was supplied, on every valid argument list `[p0, f]` the
handler stores the list under a key, calls the policy callback once with the connection
type of `p0` and the continuation for that key, and calls nothing else. The continuation,
run with `b` on any engine that holds the list under the key, returns after the single
call `f(b)` and leaves no entry under the key, so that running it again takes an unknown
key and calls nothing. -/
theorem C7_policy_continuation (NDEBUG : Bool) (jsEngine : JsEngine) (p0 f : JsValue)
    (hp0 : p0.IsNull = true ∨ p0.IsString = true) (hf : f.IsFunction = true) :
    isSubscriptionDownloadAllowedHandler NDEBUG true jsEngine [p0, f] =
      ((jsEngine.StoreJsValues [p0, f]).1,
        [Effect.isSubscriptionDownloadAllowedCallback (connectionTypeOf p0)
          jsEngine.nextValuesID],
        Outcome.returned) ∧
    (jsEngine.StoreJsValues [p0, f]).1.jsValues.lookup jsEngine.nextValuesID =
      some [p0, f] ∧
    ∀ (later : JsEngine) (key : Nat), later.jsValues.lookup key = some [p0, f] →
      ∀ b : Bool,
        callJsCallback key later b =
          (later.withoutValues key, [Effect.call f [JsValue.bool b]], Outcome.returned) ∧
        (later.withoutValues key).jsValues.lookup key = none ∧
        ∀ b2 : Bool, callJsCallback key (later.withoutValues key) b2 =
          (later.withoutValues key, [], Outcome.unknownKey) := by
  have hv := areArgumentsValid_pair p0 f hp0 hf
  refine ⟨?_, ?_, ?_⟩
  · simp only [isSubscriptionDownloadAllowedHandler, hv, JsValueList.at, List.getD_cons_zero,
      connectionTypeOf_eq]
    simp [JsEngine.StoreJsValues]
  · simp [JsEngine.StoreJsValues, List.lookup_cons]
  · intro later key hl b
    have hnone : (later.withoutValues key).jsValues.lookup key = none :=
      lookup_filter_ne later.jsValues key
    refine ⟨?_, hnone, ?_⟩
    · simp [callJsCallback, JsEngine.TakeJsValues, hl, JsEngine.withoutValues,
        JsValueList.at]
    · intro b2
      simp [callJsCallback, JsEngine.TakeJsValues, hnone]

/-- Witness of C7: on a fresh engine the list of the string `wifi` and a function is
stored under key 0 and the policy callback is called with `wifi`; the continuation then
calls the function with `false`, and a second run of it fails on the unknown key. -/
theorem C7_policy_continuation_witness :
    isSubscriptionDownloadAllowedHandler false true JsEngine.new
        [JsValue.string "wifi", JsValue.function 7] =
      ({ eventCallbacks := [],
         jsValues := [(0, [JsValue.string "wifi", JsValue.function 7])],
         nextValuesID := 1 },
        [Effect.isSubscriptionDownloadAllowedCallback (some "wifi") 0],
        Outcome.returned) ∧
    callJsCallback 0 (JsEngine.new.StoreJsValues [JsValue.string "wifi", JsValue.function 7]).1
        false =
      ({ eventCallbacks := [], jsValues := [], nextValuesID := 1 },
        [Effect.call (JsValue.function 7) [JsValue.bool false]], Outcome.returned) ∧
    callJsCallback 0
        ((JsEngine.new.StoreJsValues
          [JsValue.string "wifi", JsValue.function 7]).1.withoutValues 0) true =
      ({ eventCallbacks := [], jsValues := [], nextValuesID := 1 }, [],
        Outcome.unknownKey) :=
  have h := C7_policy_continuation false JsEngine.new (JsValue.string "wifi")
    (JsValue.function 7) (Or.inr rfl) rfl
  ⟨h.1.trans (by decide),
    ((h.2.2 _ 0 h.2.1 false).1).trans (by decide),
    ((h.2.2 _ 0 h.2.1 false).2.2 true).trans (by decide)⟩

/-! ## The `_init` handler -/

theorem mem_of_lookup_eq_some {registry : List (String × EventCallback)} {name : String}
    {cb : EventCallback} (h : registry.lookup name = some cb) : (name, cb) ∈ registry := by
  induction registry with
  | nil => simp at h
  | cons p ps ih =>
    obtain ⟨k, v⟩ := p
    rw [List.lookup_cons] at h
    cases hk : (name == k) with
    | true =>
      rw [hk] at h
      have h1 : name = k := by simpa using hk
      have h2 : v = cb := by simpa using h
      rw [h1, h2]
      exact List.mem_cons_self _ _
    | false =>
      rw [hk] at h
      exact List.mem_cons_of_mem _ (ih h)

theorem handler_registry (NDEBUG hasCallback : Bool) (jsEngine : JsEngine)
    (params : JsValueList) :
    (isSubscriptionDownloadAllowedHandler NDEBUG hasCallback jsEngine params).1.eventCallbacks
      = jsEngine.eventCallbacks := by
  unfold isSubscriptionDownloadAllowedHandler
  split
  · rfl
  · split
    · rfl
    · split
      · rfl
      · rfl

theorem handler_no_onCreated (NDEBUG hasCallback : Bool) (jsEngine : JsEngine)
    (params : JsValueList) :
    onCreatedCalls (isSubscriptionDownloadAllowedHandler NDEBUG hasCallback jsEngine params).2.1
      = 0 := by
  unfold isSubscriptionDownloadAllowedHandler
  split
  · rfl
  · split
    · rfl
    · split
      · rfl
      · rfl

/-- A trigger that does not reach the `_init` closure leaves the registry and the wrapped
pointer as they are and does not call `onCreated`. -/
theorem TriggerEvent_other (NDEBUG : Bool) (rt : Runtime) (name : String)
    (params : JsValueList)
    (h : rt.jsEngine.eventCallbacks.lookup name ≠ some EventCallback.init) :
    (TriggerEvent NDEBUG rt name params).1.jsEngine.eventCallbacks =
      rt.jsEngine.eventCallbacks ∧
    (TriggerEvent NDEBUG rt name params).1.wrappedFilterEngine = rt.wrappedFilterEngine ∧
    onCreatedCalls (TriggerEvent NDEBUG rt name params).2.1 = 0 := by
  unfold TriggerEvent
  cases hl : rt.jsEngine.eventCallbacks.lookup name with
  | none => exact ⟨rfl, rfl, rfl⟩
  | some cb =>
    cases cb with
    | init => exact absurd hl h
    | isSubscriptionDownloadAllowed hasCallback =>
      exact ⟨handler_registry _ _ _ _, rfl, handler_no_onCreated _ _ _ _⟩
    | filterChange =>
      refine ⟨rfl, rfl, ?_⟩
      simp only [EventCallback.run, filterChangeHandler]
      by_cases hr : (if (params.at 0).IsString then (params.at 0).AsString else "") = "save"
      · rw [if_pos hr]
        rfl
      · rw [if_neg hr]
        rfl

/-- A trigger of `_init` while the `_init` closure is registered runs it. -/
theorem TriggerEvent_init (NDEBUG : Bool) (rt : Runtime) (params : JsValueList)
    (h : rt.jsEngine.eventCallbacks.lookup "_init" = some EventCallback.init) :
    TriggerEvent NDEBUG rt "_init" params =
      ({ jsEngine := rt.jsEngine.RemoveEventCallback "_init", wrappedFilterEngine := false },
        [Effect.onCreated rt.wrappedFilterEngine], Outcome.returned) := by
  simp only [TriggerEvent, h, EventCallback.run, initHandler]

theorem TriggerEvents_cons_returned (NDEBUG : Bool) (rt rt1 : Runtime)
    (ev : String × JsValueList) (rest : List (String × JsValueList)) (trace1 : List Effect)
    (h : TriggerEvent NDEBUG rt ev.1 ev.2 = (rt1, trace1, Outcome.returned)) :
    TriggerEvents NDEBUG rt (ev :: rest) =
      ((TriggerEvents NDEBUG rt1 rest).1, trace1 ++ (TriggerEvents NDEBUG rt1 rest).2.1,
        (TriggerEvents NDEBUG rt1 rest).2.2) := by
  simp only [TriggerEvents, h]

theorem TriggerEvents_cons_stopped (NDEBUG : Bool) (rt rt1 : Runtime)
    (ev : String × JsValueList) (rest : List (String × JsValueList)) (trace1 : List Effect)
    (outcome : Outcome) (ho : outcome ≠ Outcome.returned)
    (h : TriggerEvent NDEBUG rt ev.1 ev.2 = (rt1, trace1, outcome)) :
    TriggerEvents NDEBUG rt (ev :: rest) = (rt1, trace1, outcome) := by
  cases outcome with
  | returned => exact absurd rfl ho
  | assertionFailed => simp only [TriggerEvents, h]
  | unknownKey => simp only [TriggerEvents, h]
  | backOfEmpty => simp only [TriggerEvents, h]

theorem onCreatedCalls_append (t1 t2 : List Effect) :
    onCreatedCalls (t1 ++ t2) = onCreatedCalls t1 + onCreatedCalls t2 := by
  simp [onCreatedCalls, List.countP_append]

/-- Once no `_init` closure is registered, no sequence of events calls `onCreated` or
registers a handler under `_init`. -/
theorem TriggerEvents_fired (NDEBUG : Bool) (evs : List (String × JsValueList))
    (rt : Runtime) (h : noInitCallback rt.jsEngine.eventCallbacks) :
    onCreatedCalls (TriggerEvents NDEBUG rt evs).2.1 = 0 ∧
    (TriggerEvents NDEBUG rt evs).1.jsEngine.eventCallbacks = rt.jsEngine.eventCallbacks := by
  induction evs generalizing rt with
  | nil => exact ⟨rfl, rfl⟩
  | cons ev rest ih =>
    have hne : rt.jsEngine.eventCallbacks.lookup ev.1 ≠ some EventCallback.init := by
      intro hl
      exact h _ (mem_of_lookup_eq_some hl) rfl
    obtain ⟨h1, _, h3⟩ := TriggerEvent_other NDEBUG rt ev.1 ev.2 hne
    rcases hstep : TriggerEvent NDEBUG rt ev.1 ev.2 with ⟨rt1, trace1, outcome⟩
    rw [hstep] at h1 h3
    simp only at h1 h3
    by_cases ho : outcome = Outcome.returned
    · subst ho
      rw [TriggerEvents_cons_returned NDEBUG rt rt1 ev rest trace1 hstep]
      have hfired : noInitCallback rt1.jsEngine.eventCallbacks := by
        rw [h1]
        exact h
      obtain ⟨i1, i2⟩ := ih rt1 hfired
      refine ⟨?_, ?_⟩
      · show onCreatedCalls (trace1 ++ _) = 0
        rw [onCreatedCalls_append, h3, i1]
      · show (TriggerEvents NDEBUG rt1 rest).1.jsEngine.eventCallbacks = _
        rw [i2, h1]
    · rw [TriggerEvents_cons_stopped NDEBUG rt rt1 ev rest trace1 outcome ho hstep]
      exact ⟨h3, h1⟩

theorem registry_lookup_filter_ne (registry : List (String × EventCallback))
    (name : String) : (registry.filter (fun p => p.1 != name)).lookup name = none := by
  induction registry with
  | nil => rfl
  | cons p ps ih =>
    obtain ⟨k, v⟩ := p
    by_cases h : k = name
    · have hneg : ((k, v).1 != name) = false := by simp [h]
      rw [List.filter_cons, hneg]
      exact ih
    · have hpos : ((k, v).1 != name) = true := by simp [h]
      have hk : (name == k) = false := by
        simp only [beq_eq_false_iff_ne, ne_eq]
        exact fun hh => h hh.symm
      rw [List.filter_cons, hpos, if_pos rfl, List.lookup_cons, hk]
      exact ih

theorem not_mem_of_onCreatedCalls_zero (trace : List Effect) (h : onCreatedCalls trace = 0)
    (b : Bool) : Effect.onCreated b ∉ trace := by
  intro hm
  have hpos : 0 < onCreatedCalls trace :=
    List.countP_pos_iff.mpr ⟨Effect.onCreated b, hm, rfl⟩
  omega

/-- Removing the handler of `_init` from an armed runtime leaves no `_init` closure. -/
theorem armed_remove (rt : Runtime) (h : rt.armed) :
    noInitCallback (rt.jsEngine.RemoveEventCallback "_init").eventCallbacks := by
  intro p hp hinit
  have hp1 : p ∈ rt.jsEngine.eventCallbacks.filter (fun q => q.1 != "_init") := hp
  rw [List.mem_filter] at hp1
  have hname := h.2.2 p hp1.1 hinit
  have hne := hp1.2
  rw [hname] at hne
  simp at hne

/-- The run of a sequence of events from an armed runtime. -/
theorem TriggerEvents_armed (NDEBUG : Bool) (evs : List (String × JsValueList))
    (rt : Runtime) (h : rt.armed) :
    onCreatedCalls (TriggerEvents NDEBUG rt evs).2.1 ≤ 1 ∧
    Effect.onCreated false ∉ (TriggerEvents NDEBUG rt evs).2.1 ∧
    ((TriggerEvents NDEBUG rt evs).2.2 = Outcome.returned →
      onCreatedCalls (TriggerEvents NDEBUG rt evs).2.1 =
        (if "_init" ∈ evs.map Prod.fst then 1 else 0) ∧
      ("_init" ∈ evs.map Prod.fst →
        (TriggerEvents NDEBUG rt evs).1.jsEngine.eventCallbacks.lookup "_init" = none)) := by
  induction evs generalizing rt with
  | nil =>
    refine ⟨Nat.zero_le _, List.not_mem_nil _, fun _ => ⟨rfl, ?_⟩⟩
    intro hm
    simp at hm
  | cons ev rest ih =>
    by_cases hname : ev.1 = "_init"
    · have hstep := TriggerEvent_init NDEBUG rt ev.2 h.2.1
      rw [← hname] at hstep
      have hfired := armed_remove rt h
      obtain ⟨f1, f2⟩ := TriggerEvents_fired NDEBUG rest
        { jsEngine := rt.jsEngine.RemoveEventCallback "_init", wrappedFilterEngine := false }
        hfired
      rw [h.1] at hstep
      rw [hname] at hstep
      have hstep1 : TriggerEvent NDEBUG rt ev.1 ev.2 =
          ({ jsEngine := rt.jsEngine.RemoveEventCallback "_init",
             wrappedFilterEngine := false },
            [Effect.onCreated true], Outcome.returned) := by
        rw [hname]
        exact hstep
      rw [TriggerEvents_cons_returned NDEBUG rt _ ev rest _ hstep1]
      have hcount : onCreatedCalls ([Effect.onCreated true] ++
          (TriggerEvents NDEBUG
            { jsEngine := rt.jsEngine.RemoveEventCallback "_init",
              wrappedFilterEngine := false } rest).2.1) = 1 := by
        rw [onCreatedCalls_append, f1]
        rfl
      have hmem : "_init" ∈ (ev :: rest).map Prod.fst := by
        simp [hname]
      refine ⟨Nat.le_of_eq hcount, ?_, fun _ => ⟨?_, fun _ => ?_⟩⟩
      · intro hm
        rcases List.mem_append.mp hm with h1 | h1
        · simp at h1
        · exact not_mem_of_onCreatedCalls_zero _ f1 false h1
      · rw [if_pos hmem]
        exact hcount
      · show (TriggerEvents NDEBUG _ rest).1.jsEngine.eventCallbacks.lookup "_init" = none
        rw [f2]
        exact registry_lookup_filter_ne _ _
    · have hne : rt.jsEngine.eventCallbacks.lookup ev.1 ≠ some EventCallback.init := by
        intro hl
        exact hname (h.2.2 _ (mem_of_lookup_eq_some hl) rfl)
      obtain ⟨h1, h2, h3⟩ := TriggerEvent_other NDEBUG rt ev.1 ev.2 hne
      rcases hstep : TriggerEvent NDEBUG rt ev.1 ev.2 with ⟨rt1, trace1, outcome⟩
      rw [hstep] at h1 h2 h3
      simp only at h1 h2 h3
      have hiff : "_init" ∈ (ev :: rest).map Prod.fst ↔ "_init" ∈ rest.map Prod.fst := by
        simp only [List.map_cons, List.mem_cons]
        constructor
        · rintro (hh | hh)
          · exact absurd hh.symm hname
          · exact hh
        · exact Or.inr
      by_cases ho : outcome = Outcome.returned
      · subst ho
        rw [TriggerEvents_cons_returned NDEBUG rt rt1 ev rest trace1 hstep]
        have harmed : rt1.armed := by
          refine ⟨?_, ?_, ?_⟩
          · rw [h2]
            exact h.1
          · rw [h1]
            exact h.2.1
          · rw [h1]
            exact h.2.2
        obtain ⟨i1, i2, i3⟩ := ih rt1 harmed
        refine ⟨?_, ?_, ?_⟩
        · show onCreatedCalls (trace1 ++ _) ≤ 1
          rw [onCreatedCalls_append, h3]
          omega
        · intro hm
          rcases List.mem_append.mp hm with hh | hh
          · exact not_mem_of_onCreatedCalls_zero _ h3 false hh
          · exact i2 hh
        · intro hret
          obtain ⟨j1, j2⟩ := i3 hret
          refine ⟨?_, ?_⟩
          · show onCreatedCalls (trace1 ++ _) = _
            rw [onCreatedCalls_append, h3, j1]
            by_cases hm : "_init" ∈ rest.map Prod.fst
            · rw [if_pos hm, if_pos (hiff.mpr hm)]
            · rw [if_neg hm, if_neg (fun hh => hm (hiff.mp hh))]
          · intro hm
            exact j2 (hiff.mp hm)
      · rw [TriggerEvents_cons_stopped NDEBUG rt rt1 ev rest trace1 outcome ho hstep]
        refine ⟨?_, not_mem_of_onCreatedCalls_zero _ h3 false, fun hret => absurd hret ho⟩
        show onCreatedCalls trace1 ≤ 1
        omega

/-- After `CreateAsync` on an engine without an `_init` closure the runtime is armed. -/
theorem CreateAsync_armed (scripts : List Char) (jsEngine : JsEngine)
    (params : CreationParameters) (h : noInitCallback jsEngine.eventCallbacks) :
    (CreateAsync scripts jsEngine params).1.armed := by
  refine ⟨rfl, ?_, ?_⟩
  · simp [CreateAsync, JsEngine.SetEventCallback, filterChangeEvent, List.lookup_cons,
      List.filter_cons]
  · intro p hp hinit
    simp only [CreateAsync, JsEngine.SetEventCallback, filterChangeEvent, List.mem_cons,
      List.mem_filter] at hp
    rcases hp with hp | ⟨hp | ⟨hp | ⟨hp, _⟩, _⟩, _⟩
    · rw [hp] at hinit
      exact absurd hinit (by decide)
    · rw [hp]
    · rw [hp] at hinit
      exact absurd hinit (by simp)
    · exact absurd hinit (h p hp)

/-! ## Script loading -/

theorem takeWhile_append_of_false {p : Char → Bool} (l m : List Char)
    (h : ∃ x ∈ l, p x = false) : (l ++ m).takeWhile p = l.takeWhile p := by
  induction l with
  | nil =>
    obtain ⟨x, hx, _⟩ := h
    simp at hx
  | cons a l ih =>
    cases hpa : p a with
    | false => simp [List.takeWhile_cons, hpa]
    | true =>
      obtain ⟨x, hx, hpx⟩ := h
      have hx1 : x ∈ l := by
        rcases List.mem_cons.mp hx with h1 | h1
        · rw [h1, hpa] at hpx
          exact absurd hpx (by decide)
        · exact h1
      simp [List.takeWhile_cons, hpa, ih ⟨x, hx1, hpx⟩]

theorem lastComponent_of_not_mem (s : List Char) (h : '/' ∉ s) : lastComponent s = s := by
  have hall : ∀ c ∈ s.reverse, (fun c => c != '/') c = true := by
    intro c hc
    have hc1 : c ∈ s := List.mem_reverse.mp hc
    have : c ≠ '/' := fun hh => h (hh ▸ hc1)
    simpa using this
  rw [lastComponent, takeWhile_eq_self _ hall, List.reverse_reverse]

theorem lastComponent_cons_of_mem (c : Char) (s : List Char) (h : '/' ∈ s) :
    lastComponent (c :: s) = lastComponent s := by
  have hex : ∃ x ∈ s.reverse, (fun c => c != '/') x = false :=
    ⟨'/', List.mem_reverse.mpr h, by decide⟩
  simp only [lastComponent, List.reverse_cons]
  rw [takeWhile_append_of_false _ _ hex]

theorem lastComponent_slash_cons (s : List Char) :
    lastComponent ('/' :: s) = lastComponent s := by
  by_cases h : '/' ∈ s
  · exact lastComponent_cons_of_mem _ _ h
  · rw [lastComponent_of_not_mem s h]
    have hall : ∀ c ∈ s.reverse, (fun c => c != '/') c = true := by
      intro c hc
      have hc1 : c ∈ s := List.mem_reverse.mp hc
      have : c ≠ '/' := fun hh => h (hh ▸ hc1)
      simpa using this
    simp only [lastComponent, List.reverse_cons]
    rw [takeWhile_all_append _ _ hall]
    simp [List.takeWhile_cons]

theorem getLast?_cons_of_ne_nil (first : List Char) (others : List (List Char))
    (h : others ≠ []) : (first :: others).getLast? = others.getLast? := by
  cases others with
  | nil => exact absurd rfl h
  | cons o os => exact List.getLast?_cons_cons

/-- The shape of the components of a path: a single component when the path has no `/`,
and otherwise a list whose last element is the last component of the path. -/
theorem SplitString_slash_shape (s : List Char) :
    ∃ first others, SplitString s '/' = first :: others ∧
      (others = [] → first = s ∧ '/' ∉ s) ∧
      (others ≠ [] → '/' ∈ s ∧ others.getLast? = some (lastComponent s)) := by
  induction s with
  | nil =>
    refine ⟨[], [], rfl, fun _ => ⟨rfl, List.not_mem_nil _⟩, fun h => absurd rfl h⟩
  | cons c cs ih =>
    obtain ⟨first, others, hs, h1, h2⟩ := ih
    by_cases hc : c = '/'
    · subst hc
      refine ⟨[], first :: others, ?_, fun h => absurd h (List.cons_ne_nil _ _), fun _ => ?_⟩
      · simp [SplitString, hs]
      · refine ⟨List.mem_cons_self _ _, ?_⟩
        rw [lastComponent_slash_cons]
        by_cases ho : others = []
        · obtain ⟨e1, e2⟩ := h1 ho
          rw [ho, e1, lastComponent_of_not_mem cs e2]
          rfl
        · rw [getLast?_cons_of_ne_nil _ _ ho]
          exact (h2 ho).2
    · refine ⟨c :: first, others, ?_, fun ho => ?_, fun ho => ?_⟩
      · simp [SplitString, hc, hs]
      · obtain ⟨e1, e2⟩ := h1 ho
        refine ⟨by rw [e1], ?_⟩
        intro hm
        rcases List.mem_cons.mp hm with hh | hh
        · exact hc hh.symm
        · exact e2 hh
      · obtain ⟨e1, e2⟩ := h2 ho
        refine ⟨List.mem_cons_of_mem _ e1, ?_⟩
        rw [lastComponent_cons_of_mem _ _ e1]
        exact e2

/-- The element `back()` of the components of a path is its last component. -/
theorem SplitString_back (s : List Char) :
    (SplitString s '/').getLast? = some (lastComponent s) := by
  obtain ⟨first, others, hs, h1, h2⟩ := SplitString_slash_shape s
  rw [hs]
  by_cases ho : others = []
  · obtain ⟨e1, e2⟩ := h1 ho
    rw [ho, e1, lastComponent_of_not_mem s e2]
    rfl
  · rw [getLast?_cons_of_ne_nil _ _ ho]
    exact (h2 ho).2

/-- The script loop calls `evaluateCallback` once per file, in order, with the last
component of the file, and returns. -/
theorem evaluateScripts_eq (files : List (List Char)) :
    evaluateScripts files =
      (files.map (fun f => Effect.evaluateCallback (lastComponent f)), Outcome.returned) := by
  induction files with
  | nil => rfl
  | cons f fs ih =>
    rw [evaluateScripts]
    simp only [SplitString_back, ih, List.map_cons]

theorem SplitString_single (d : Char) (e : List Char) (h : d ∉ e) :
    SplitString e d = [e] := by
  induction e with
  | nil => rfl
  | cons c cs ih =>
    have hc : c ≠ d := fun hh => h (hh ▸ List.mem_cons_self _ _)
    have hcs : d ∉ cs := fun hh => h (List.mem_cons_of_mem _ hh)
    simp [SplitString, hc, ih hcs]

theorem SplitString_append_separator (d : Char) (e rest : List Char) (h : d ∉ e) :
    SplitString (e ++ d :: rest) d = e :: SplitString rest d := by
  induction e with
  | nil => simp [SplitString]
  | cons c cs ih =>
    have hc : c ≠ d := fun hh => h (hh ▸ List.mem_cons_self _ _)
    have hcs : d ∉ cs := fun hh => h (List.mem_cons_of_mem _ hh)
    simp [SplitString, hc, ih hcs]

/-- Splitting a text made of entries joined by a separator gives back the entries. -/
theorem SplitString_joinWith (d : Char) (entries : List (List Char))
    (hne : entries ≠ []) (h : ∀ e ∈ entries, d ∉ e) :
    SplitString (joinWith d entries) d = entries := by
  induction entries with
  | nil => exact absurd rfl hne
  | cons e es ih =>
    cases es with
    | nil => exact SplitString_single d e (h e (List.mem_cons_self _ _))
    | cons e2 es2 =>
      show SplitString (e ++ d :: joinWith d (e2 :: es2)) d = _
      rw [SplitString_append_separator d e _ (h e (List.mem_cons_self _ _)),
        ih (List.cons_ne_nil _ _) (fun x hx => h x (List.mem_cons_of_mem _ hx))]

theorem evaluatedFiles_map (names : List (List Char)) :
    evaluatedFiles (names.map Effect.evaluateCallback) = names := by
  induction names with
  | nil => rfl
  | cons n ns ih =>
    simp only [evaluatedFiles, List.map_cons, List.filterMap_cons] at ih ⊢
    rw [ih]

/-- In a build that defines `NDEBUG` every dispatch returns. -/
theorem TriggerEvents_ndebug_returned (evs : List (String × JsValueList)) (rt : Runtime) :
    (TriggerEvents true rt evs).2.2 = Outcome.returned := by
  induction evs generalizing rt with
  | nil => rfl
  | cons ev rest ih =>
    have hstep : (TriggerEvent true rt ev.1 ev.2).2.2 = Outcome.returned := by
      unfold TriggerEvent
      cases rt.jsEngine.eventCallbacks.lookup ev.1 with
      | none => rfl
      | some cb =>
        cases cb with
        | init => rfl
        | filterChange => rfl
        | isSubscriptionDownloadAllowed hasCallback =>
          simp only [EventCallback.run, isSubscriptionDownloadAllowedHandler]
          split
          · rename_i hc
            simp at hc
          · split
            · rfl
            · split <;> rfl
    rcases hs : TriggerEvent true rt ev.1 ev.2 with ⟨rt1, trace1, outcome⟩
    rw [hs] at hstep
    simp only at hstep
    subst hstep
    rw [TriggerEvents_cons_returned true rt rt1 ev rest trace1 hs]
    exact ih rt1

/-! ## The creation protocol -/

/-- C8: the creation-complete callback is invoked at most once. After `CreateAsync` has
registered its handlers on an engine that did not hold the `_init` closure, `CreateAsync`
itself has not called `onCreated`; no sequence of script-triggered events makes more than
one call of `onCreated`, and none hands over an empty pointer; when every event of the
sequence is dispatched (each dispatch returns, which is always so in a build that defines
`NDEBUG`), `onCreated` is called exactly once if `_init` occurs in the sequence and never
otherwise, and after an `_init` no handler is registered under `_init`. -/
theorem C8_onCreated_once (NDEBUG : Bool) (scripts : List Char) (jsEngine : JsEngine)
    (params : CreationParameters) (evs : List (String × JsValueList))
    (h0 : noInitCallback jsEngine.eventCallbacks) :
    onCreatedCalls (CreateAsync scripts jsEngine params).2.1 = 0 ∧
    onCreatedCalls (TriggerEvents NDEBUG (CreateAsync scripts jsEngine params).1 evs).2.1
      ≤ 1 ∧
    Effect.onCreated false ∉
      (TriggerEvents NDEBUG (CreateAsync scripts jsEngine params).1 evs).2.1 ∧
    (NDEBUG = true →
      (TriggerEvents NDEBUG (CreateAsync scripts jsEngine params).1 evs).2.2 =
        Outcome.returned) ∧
    ((TriggerEvents NDEBUG (CreateAsync scripts jsEngine params).1 evs).2.2 =
        Outcome.returned →
      onCreatedCalls (TriggerEvents NDEBUG (CreateAsync scripts jsEngine params).1 evs).2.1 =
        (if "_init" ∈ evs.map Prod.fst then 1 else 0) ∧
      ("_init" ∈ evs.map Prod.fst →
        (TriggerEvents NDEBUG (CreateAsync scripts jsEngine params).1
          evs).1.jsEngine.eventCallbacks.lookup "_init" = none)) := by
  have harmed := CreateAsync_armed scripts jsEngine params h0
  obtain ⟨a1, a2, a3⟩ := TriggerEvents_armed NDEBUG evs _ harmed
  refine ⟨?_, a1, a2, ?_, a3⟩
  · show onCreatedCalls ([Effect.setGlobalProperty "_preconfiguredPrefs" _] ++
      (evaluateScripts (SplitString scripts ' ')).1) = 0
    rw [onCreatedCalls_append, evaluateScripts_eq]
    have hz : ∀ names : List (List Char),
        onCreatedCalls (names.map (fun f => Effect.evaluateCallback (lastComponent f))) = 0 := by
      intro names
      induction names with
      | nil => rfl
      | cons n ns ih =>
        show onCreatedCalls ([Effect.evaluateCallback (lastComponent n)] ++ _) = 0
        rw [onCreatedCalls_append, ih]
        rfl
    rw [hz]
    rfl
  · intro hnd
    subst hnd
    exact TriggerEvents_ndebug_returned evs _

/-- Witness of C8: after `CreateAsync` on a fresh engine, a sequence with two `_init`
events among others is dispatched in full in a build without `NDEBUG`, and calls
`onCreated` once. -/
theorem C8_onCreated_once_witness :
    noInitCallback JsEngine.new.eventCallbacks ∧
    (TriggerEvents false
      (CreateAsync "lib/a.js b.js".toList JsEngine.new
        { preconfiguredPrefs := [], isSubscriptionDownloadAllowedCallback := true }).1
      sampleEvents).2.2 = Outcome.returned ∧
    onCreatedCalls (TriggerEvents false
      (CreateAsync "lib/a.js b.js".toList JsEngine.new
        { preconfiguredPrefs := [], isSubscriptionDownloadAllowedCallback := true }).1
      sampleEvents).2.1 = 1 :=
  ⟨by decide, by decide,
    ((C8_onCreated_once false "lib/a.js b.js".toList JsEngine.new
      { preconfiguredPrefs := [], isSubscriptionDownloadAllowedCallback := true }
      sampleEvents (by decide)).2.2.2.2 (by decide)).1.trans (by decide)⟩

/-- C9: `CreateAsync` evaluates the script sources in the declared order, by basename. It
returns; its calls are the setting of the global `_preconfiguredPrefs` followed by one
`evaluateCallback` per entry of the space-separated list, in order, each with the last
`/`-separated component of the entry; so the arguments are as many as the entries, and
every `evaluateCallback` has the setting of the global before it. For entries without a
space joined by single spaces, the entries of the list are those entries. -/
theorem C9_scripts_evaluated_in_order (scripts : List Char) (jsEngine : JsEngine)
    (params : CreationParameters) :
    (CreateAsync scripts jsEngine params).2.2 = Outcome.returned ∧
    (∃ object, (CreateAsync scripts jsEngine params).2.1 =
      Effect.setGlobalProperty "_preconfiguredPrefs" object ::
        (SplitString scripts ' ').map (fun f => Effect.evaluateCallback (lastComponent f))) ∧
    evaluatedFiles (CreateAsync scripts jsEngine params).2.1 =
      (SplitString scripts ' ').map lastComponent ∧
    (evaluatedFiles (CreateAsync scripts jsEngine params).2.1).length =
      (SplitString scripts ' ').length ∧
    (∀ (i : Nat) (f : List Char),
      (CreateAsync scripts jsEngine params).2.1[i]? = some (Effect.evaluateCallback f) →
      ∃ j object, j < i ∧ (CreateAsync scripts jsEngine params).2.1[j]? =
        some (Effect.setGlobalProperty "_preconfiguredPrefs" object)) ∧
    (∀ entries : List (List Char), entries ≠ [] → (∀ e ∈ entries, ' ' ∉ e) →
      evaluatedFiles (CreateAsync (joinWith ' ' entries) jsEngine params).2.1 =
        entries.map lastComponent) := by
  have htrace : ∀ s : List Char, (CreateAsync s jsEngine params).2.1 =
      Effect.setGlobalProperty "_preconfiguredPrefs"
        (params.preconfiguredPrefs.foldl
          (fun object pref => SetProperty object pref.1 pref.2) []) ::
        (SplitString s ' ').map (fun f => Effect.evaluateCallback (lastComponent f)) := by
    intro s
    simp only [CreateAsync, evaluateScripts_eq]
  have hfiles : ∀ s : List Char, evaluatedFiles (CreateAsync s jsEngine params).2.1 =
      (SplitString s ' ').map lastComponent := by
    intro s
    rw [htrace]
    have hmap : (SplitString s ' ').map (fun f => Effect.evaluateCallback (lastComponent f)) =
        ((SplitString s ' ').map lastComponent).map Effect.evaluateCallback := by
      rw [List.map_map]
      rfl
    rw [hmap]
    show evaluatedFiles ([Effect.setGlobalProperty _ _] ++ _) = _
    simp only [evaluatedFiles, List.filterMap_append, List.filterMap_cons,
      List.filterMap_nil, List.nil_append]
    exact evaluatedFiles_map _
  refine ⟨?_, ⟨_, htrace scripts⟩, hfiles scripts, ?_, ?_, ?_⟩
  · simp only [CreateAsync, evaluateScripts_eq]
  · rw [hfiles, List.length_map]
  · intro i f hi
    refine ⟨0, params.preconfiguredPrefs.foldl
      (fun object pref => SetProperty object pref.1 pref.2) [], ?_, ?_⟩
    · cases i with
      | zero =>
        rw [htrace] at hi
        simp at hi
      | succ n => exact Nat.succ_pos n
    · rw [htrace]
      exact List.getElem?_cons_zero
  · intro entries hne hsp
    rw [hfiles, SplitString_joinWith ' ' entries hne hsp]

/-- Witness of C9: the list `lib/a.js lib/sub/b.js c.js` is evaluated as `a.js`, `b.js`,
`c.js`. -/
theorem C9_scripts_evaluated_in_order_witness :
    evaluatedFiles
      (CreateAsync
        (joinWith ' ' ["lib/a.js".toList, "lib/sub/b.js".toList, "c.js".toList])
        JsEngine.new
        { preconfiguredPrefs := [("x", JsValue.bool true)],
          isSubscriptionDownloadAllowedCallback := false }).2.1 =
      ["a.js".toList, "b.js".toList, "c.js".toList] :=
  ((C9_scripts_evaluated_in_order [] JsEngine.new
    { preconfiguredPrefs := [("x", JsValue.bool true)],
      isSubscriptionDownloadAllowedCallback := false }).2.2.2.2.2
    ["lib/a.js".toList, "lib/sub/b.js".toList, "c.js".toList] (by decide)
    (by decide)).trans (by decide)

/-- C10 (as amended): on every invalid argument list (length other than 2, or a first
element that is neither null nor a string, or a second element that is not a function)
the `_isSubscriptionDownloadAllowed` handler calls nothing and leaves the engine, and so
the Async Value Table, unchanged; it fails the assertion in a build without `NDEBUG` and
returns to its caller in a build with `NDEBUG`. -/
theorem C10_invalid_arguments (NDEBUG hasCallback : Bool) (jsEngine : JsEngine)
    (params : JsValueList)
    (hinv : params.length ≠ 2 ∨
      ((params.at 0).IsNull = false ∧ (params.at 0).IsString = false) ∨
      (params.at 1).IsFunction = false) :
    isSubscriptionDownloadAllowedHandler NDEBUG hasCallback jsEngine params =
      (jsEngine, [], if NDEBUG then Outcome.returned else Outcome.assertionFailed) := by
  have hv : areArgumentsValid params = false := by
    rcases hinv with h | ⟨h1, h2⟩ | h
    · simp [areArgumentsValid, h]
    · simp [areArgumentsValid, h1, h2]
    · simp [areArgumentsValid, h]
  cases NDEBUG <;> simp [isSubscriptionDownloadAllowedHandler, hv]

/-- Witness of C10: a list of one element fails the assertion in a build without
`NDEBUG`. -/
theorem C10_invalid_arguments_witness :
    isSubscriptionDownloadAllowedHandler false true JsEngine.new [JsValue.null] =
      (JsEngine.new, [], Outcome.assertionFailed) :=
  (C10_invalid_arguments false true JsEngine.new [JsValue.null]
    (Or.inl (by decide))).trans (by decide)

/-- C10 as stated fails in a build that defines `NDEBUG`: on the invalid argument list of
a number and a function the handler does not fail an assertion, it returns to its
caller. -/
theorem C10_release_build_counterexample :
    areArgumentsValid [JsValue.number 1, JsValue.function 2] = false ∧
    (isSubscriptionDownloadAllowedHandler true true JsEngine.new
        [JsValue.number 1, JsValue.function 2]).2.2 = Outcome.returned ∧
    (isSubscriptionDownloadAllowedHandler true true JsEngine.new
        [JsValue.number 1, JsValue.function 2]).2.2 ≠ Outcome.assertionFailed := by
  decide

/-! ## Lines that are not status lines -/

/-- The header callback, while a status line is expected, on a line that starts with
`HTTP/1.` and has two more characters `a` and `b`: the checks of the source in terms of
`k1`, the number of whitespace characters that follow, and `k2`, the number of digits
after them. -/
theorem ReceiveHeader_lead (d : HeaderData) (a b : Char) (R : List Char)
    (hd : d.expectingStatus = true) :
    ReceiveHeader d ('H' :: 'T' :: 'T' :: 'P' :: '/' :: '1' :: '.' :: a :: b :: R) =
      if (isdigit a && isspace b) = true then
        if (decide (0 < ((R.drop (R.takeWhile isspace).length).takeWhile isdigit).length) &&
            decide ((R.takeWhile isspace).length +
              ((R.drop (R.takeWhile isspace).length).takeWhile isdigit).length < R.length) &&
            isspace (R.getD ((R.takeWhile isspace).length +
              ((R.drop (R.takeWhile isspace).length).takeWhile isdigit).length)
              (Char.ofNat 0))) = true then
          { status := extractInt ((R.drop (R.takeWhile isspace).length).take
              ((R.drop (R.takeWhile isspace).length).takeWhile isdigit).length),
            expectingStatus := false, headers := [] }
        else d
      else d := by
  have hdrop : ∀ k : Nat,
      ('H' :: 'T' :: 'T' :: 'P' :: '/' :: '1' :: '.' :: a :: b :: R).drop (9 + k) =
        R.drop k := by
    intro k
    have : 9 + k = k + 1 + 1 + 1 + 1 + 1 + 1 + 1 + 1 + 1 := by omega
    rw [this]
    simp only [List.drop_succ_cons]
  have hchar : ∀ k : Nat,
      charAt ('H' :: 'T' :: 'T' :: 'P' :: '/' :: '1' :: '.' :: a :: b :: R) (9 + k) =
        R.getD k (Char.ofNat 0) := by
    intro k
    have : 9 + k = k + 1 + 1 + 1 + 1 + 1 + 1 + 1 + 1 + 1 := by omega
    rw [this]
    simp only [charAt, List.getD_cons_succ]
  have hc7 : charAt ('H' :: 'T' :: 'T' :: 'P' :: '/' :: '1' :: '.' :: a :: b :: R) 7 = a :=
    rfl
  have hc8 : charAt ('H' :: 'T' :: 'T' :: 'P' :: '/' :: '1' :: '.' :: a :: b :: R) 8 = b :=
    rfl
  have h90 : ('H' :: 'T' :: 'T' :: 'P' :: '/' :: '1' :: '.' :: a :: b :: R).drop 9 = R :=
    rfl
  have hlead : substr ('H' :: 'T' :: 'T' :: 'P' :: '/' :: '1' :: '.' :: a :: b :: R) 0 7 =
      statusLead := rfl
  have hlen : ('H' :: 'T' :: 'T' :: 'P' :: '/' :: '1' :: '.' :: a :: b :: R).length =
      9 + R.length := by
    simp only [List.length_cons]
    omega
  have hlead2 : List.take 7
      (List.drop 0 ('H' :: 'T' :: 'T' :: 'P' :: '/' :: '1' :: '.' :: a :: b :: R)) =
      statusLead := rfl
  have hleadLen : statusLead.length = 7 := rfl
  unfold ReceiveHeader
  rw [if_pos hd]
  have h72 : (7 + 2 : Nat) = 9 := rfl
  have e2 : ∀ x y : Nat, 9 + x + y = 9 + (x + y) := by
    intro x y
    omega
  have e1 : ∀ x y : Nat, 9 + (x + y) - (9 + x) = y := by
    intro x y
    omega
  simp only [hleadLen, hlead, hc7, hc8, hlen, scanForward, h72, h90, hdrop, e2, hchar,
    substr, e1, hlead2]
  by_cases hab : (isdigit a && isspace b) = true
  · have h1 : (decide (9 + R.length ≥ 9) && (statusLead == statusLead) && isdigit a &&
        isspace b) = true := by
      simp only [Bool.and_eq_true] at hab
      simp [hab.1, hab.2]
    rw [if_pos h1, if_pos hab]
    congr 1
    simp only [Bool.and_eq_true, decide_eq_true_eq, eq_iff_iff]
    constructor
    · rintro ⟨⟨x, y⟩, z⟩
      exact ⟨⟨by omega, by omega⟩, z⟩
    · rintro ⟨⟨x, y⟩, z⟩
      exact ⟨⟨by omega, by omega⟩, z⟩
  · have h1 : ¬ (decide (9 + R.length ≥ 9) && (statusLead == statusLead) && isdigit a &&
        isspace b) = true := by
      intro hh
      apply hab
      simp only [Bool.and_eq_true] at hh ⊢
      exact ⟨hh.1.2, hh.2⟩
    rw [if_neg h1, if_neg hab]

theorem isdigit_of_isspace {c : Char} (h : isspace c = true) : isdigit c = false := by
  cases hd : isdigit c with
  | false => rfl
  | true =>
    rw [isspace_of_isdigit hd] at h
    exact Bool.noConfusion h

theorem drop_length_takeWhile (p : Char → Bool) (l : List Char) :
    l.drop (l.takeWhile p).length = l.dropWhile p := by
  have h0 := List.drop_left (l.takeWhile p) (l.dropWhile p)
  rwa [List.takeWhile_append_dropWhile] at h0

theorem take_length_takeWhile (p : Char → Bool) (l : List Char) :
    l.take (l.takeWhile p).length = l.takeWhile p := by
  have h0 := List.take_left (l.takeWhile p) (l.dropWhile p)
  rwa [List.takeWhile_append_dropWhile] at h0

theorem drop_eq_getD_cons (l : List Char) (i : Nat) (h : i < l.length) :
    l.drop i = l.getD i (Char.ofNat 0) :: l.drop (i + 1) := by
  rw [List.getD_eq_getElem _ _ h]
  exact List.drop_eq_getElem_cons h

/-- While a status line is expected, a line shorter than nine characters or not starting
with `HTTP/1.` changes nothing. -/
theorem ReceiveHeader_no_lead (d : HeaderData) (line : List Char)
    (hd : d.expectingStatus = true)
    (h : ¬ (9 ≤ line.length ∧ line.take 7 = statusLead)) : ReceiveHeader d line = d := by
  unfold ReceiveHeader
  rw [if_pos hd]
  have hleadLen : statusLead.length = 7 := rfl
  have hc : ¬ (decide (line.length ≥ statusLead.length + 2) &&
      (substr line 0 statusLead.length == statusLead) &&
      isdigit (charAt line statusLead.length) &&
      isspace (charAt line (statusLead.length + 1))) = true := by
    intro hh
    apply h
    simp only [Bool.and_eq_true, decide_eq_true_eq, beq_iff_eq, hleadLen, substr,
      List.drop_zero] at hh
    exact ⟨hh.1.1.1, hh.1.1.2⟩
  simp only [hc]
  rfl

/-- A line of at least nine characters that starts with `HTTP/1.`, taken apart. -/
theorem lead_shape (line : List Char) (h1 : 9 ≤ line.length)
    (h2 : line.take 7 = statusLead) :
    ∃ (a b : Char) (R : List Char),
      line = 'H' :: 'T' :: 'T' :: 'P' :: '/' :: '1' :: '.' :: a :: b :: R := by
  have hsplit : line = line.take 7 ++ line.drop 7 := (List.take_append_drop 7 line).symm
  have h7 : line.drop 7 = line.getD 7 (Char.ofNat 0) :: line.drop 8 :=
    drop_eq_getD_cons line 7 (by omega)
  have h8 : line.drop 8 = line.getD 8 (Char.ofNat 0) :: line.drop 9 :=
    drop_eq_getD_cons line 8 (by omega)
  refine ⟨line.getD 7 (Char.ofNat 0), line.getD 8 (Char.ofNat 0), line.drop 9, ?_⟩
  conv_lhs => rw [hsplit, h2, h7, h8]
  rfl

/-- While a status line is expected, a line that makes `ReceiveHeader` change the
`HeaderData` has the form of a status line. -/
theorem isStatusForm_of_changed (d : HeaderData) (line : List Char)
    (hd : d.expectingStatus = true) (hne : ReceiveHeader d line ≠ d) :
    isStatusForm line := by
  by_cases hshape : 9 ≤ line.length ∧ line.take 7 = statusLead
  · obtain ⟨a, b, R, rfl⟩ := lead_shape line hshape.1 hshape.2
    rw [ReceiveHeader_lead d a b R hd] at hne
    by_cases hab : (isdigit a && isspace b) = true
    · rw [if_pos hab] at hne
      by_cases hc : (decide (0 < ((R.drop (R.takeWhile isspace).length).takeWhile
            isdigit).length) &&
          decide ((R.takeWhile isspace).length +
            ((R.drop (R.takeWhile isspace).length).takeWhile isdigit).length < R.length) &&
          isspace (R.getD ((R.takeWhile isspace).length +
            ((R.drop (R.takeWhile isspace).length).takeWhile isdigit).length)
            (Char.ofNat 0))) = true
      · simp only [Bool.and_eq_true, decide_eq_true_eq] at hab hc
        obtain ⟨⟨hk2, hlt⟩, hw2⟩ := hc
        rw [drop_length_takeWhile] at hk2 hlt hw2
        have hR : R = R.takeWhile isspace ++ R.dropWhile isspace :=
          (List.takeWhile_append_dropWhile isspace R).symm
        have hR2 : R.dropWhile isspace = (R.dropWhile isspace).takeWhile isdigit ++
            (R.dropWhile isspace).dropWhile isdigit :=
          (List.takeWhile_append_dropWhile isdigit _).symm
        have hR3 : (R.dropWhile isspace).dropWhile isdigit =
            R.getD ((R.takeWhile isspace).length +
              ((R.dropWhile isspace).takeWhile isdigit).length) (Char.ofNat 0) ::
            R.drop ((R.takeWhile isspace).length +
              ((R.dropWhile isspace).takeWhile isdigit).length + 1) := by
          rw [← drop_eq_getD_cons R _ hlt, ← drop_length_takeWhile isdigit,
            ← drop_length_takeWhile isspace R, List.drop_drop]
        refine ⟨a, b, R.takeWhile isspace, (R.dropWhile isspace).takeWhile isdigit,
          R.getD ((R.takeWhile isspace).length +
            ((R.dropWhile isspace).takeWhile isdigit).length) (Char.ofNat 0),
          R.drop ((R.takeWhile isspace).length +
            ((R.dropWhile isspace).takeWhile isdigit).length + 1),
          ?_, hab.1, hab.2, ?_, ?_, ?_, hw2⟩
        · rw [← hR3, ← hR2, ← hR]
          rfl
        · intro c hc
          exact List.mem_takeWhile_imp hc
        · exact List.length_pos.mp hk2
        · intro c hc
          exact List.mem_takeWhile_imp hc
      · rw [if_neg hc] at hne
        exact absurd rfl hne
    · rw [if_neg hab] at hne
      exact absurd rfl hne
  · exact absurd (ReceiveHeader_no_lead d line hd hshape) hne

/-- While a status line is expected, a line that has the form of a status line is taken
as one. -/
theorem ReceiveHeader_of_isStatusForm (d : HeaderData) (line : List Char)
    (hd : d.expectingStatus = true) (hf : isStatusForm line) :
    (ReceiveHeader d line).expectingStatus = false := by
  obtain ⟨a, b, ws, digits, w2, rest, rfl, ha, hb, hws, hne, hdig, hw2⟩ := hf
  have hline : statusLead ++ a :: b :: (ws ++ (digits ++ w2 :: rest)) =
      'H' :: 'T' :: 'T' :: 'P' :: '/' :: '1' :: '.' :: a :: b ::
        (ws ++ (digits ++ w2 :: rest)) := rfl
  rw [hline, ReceiveHeader_lead d a b _ hd]
  have hab : (isdigit a && isspace b) = true := by simp [ha, hb]
  obtain ⟨c0, cs, hcs⟩ := List.exists_cons_of_ne_nil hne
  have hs0 : isspace c0 = false :=
    isspace_of_isdigit (hdig c0 (hcs ▸ List.mem_cons_self _ _))
  have hk1 : (ws ++ (digits ++ w2 :: rest)).takeWhile isspace = ws := by
    rw [takeWhile_all_append _ _ hws, hcs]
    simp [List.takeWhile_cons, hs0]
  have hdrop : (ws ++ (digits ++ w2 :: rest)).drop ws.length = digits ++ w2 :: rest :=
    List.drop_left ws _
  have hk2 : (digits ++ w2 :: rest).takeWhile isdigit = digits := by
    rw [takeWhile_all_append _ _ hdig]
    simp [List.takeWhile_cons, isdigit_of_isspace hw2]
  have hget : (ws ++ (digits ++ w2 :: rest)).getD (ws.length + digits.length)
      (Char.ofNat 0) = w2 := by
    rw [List.getD_eq_getElem?_getD, List.getElem?_append_right (Nat.le_add_right _ _)]
    have e : ws.length + digits.length - ws.length = digits.length := by omega
    rw [e, List.getElem?_append_right (Nat.le_refl _)]
    simp
  have hpos : 0 < digits.length := List.length_pos.mpr hne
  rw [if_pos hab, hk1, hdrop, hk2, hget]
  have hc : (decide (0 < digits.length) &&
      decide (ws.length + digits.length < (ws ++ (digits ++ w2 :: rest)).length) &&
      isspace w2) = true := by
    simp only [Bool.and_eq_true, decide_eq_true_eq, List.length_append, List.length_cons]
    exact ⟨⟨hpos, by omega⟩, hw2⟩
  rw [if_pos hc]

/-- A line that a fresh `HeaderData` ignores does not have the form of a status line. -/
theorem not_isStatusForm_of_ignored (line : List Char)
    (h : ReceiveHeader HeaderData.new line = HeaderData.new) : ¬ isStatusForm line := by
  intro hf
  have h1 := ReceiveHeader_of_isStatusForm HeaderData.new line rfl hf
  rw [h] at h1
  exact Bool.noConfusion h1

/-- A stream without a line of the form of a status line leaves the `HeaderData` as it
is when a status line is expected at its start. -/
theorem foldl_ReceiveHeader_no_status (lines : List (List Char)) (d : HeaderData)
    (hd : d.expectingStatus = true) (h : ∀ l ∈ lines, ¬ isStatusForm l) :
    lines.foldl ReceiveHeader d = d := by
  induction lines with
  | nil => rfl
  | cons l ls ih =>
    have hl : ReceiveHeader d l = d := by
      by_contra hne
      exact h l (List.mem_cons_self _ _) (isStatusForm_of_changed d l hd hne)
    rw [List.foldl_cons, hl]
    exact ih (fun x hx => h x (List.mem_cons_of_mem _ hx))

/-- C11: while a status line is expected, `ReceiveHeader` ignores every line that is not
of the form `HTTP/1.`, one digit, whitespace, optional whitespace, one or more digits,
whitespace: the whole `HeaderData` (status, stored lines, expectation flag) is left as it
is. Hence for a stream none of whose lines has that form, `GET` surfaces the protocol
status 0 and no header, whatever the lines are. -/
theorem C11_non_status_lines_ignored :
    (∀ (d : HeaderData) (line : List Char), d.expectingStatus = true →
      ¬ isStatusForm line → ReceiveHeader d line = d) ∧
    (∀ (ns : IWebRequest) (curl : Curl) (url : List Char)
      (requestHeaders : List (List Char × List Char)),
      (∀ l ∈ (curl (getOptions url requestHeaders)).headerLines, ¬ isStatusForm l) →
      (curl (getOptions url requestHeaders)).headerLines.foldl ReceiveHeader HeaderData.new =
        HeaderData.new ∧
      (GET ns (some curl) url requestHeaders).responseStatus = 0 ∧
      (GET ns (some curl) url requestHeaders).responseHeaders = []) := by
  refine ⟨?_, ?_⟩
  · intro d line hd hnf
    by_contra hne
    exact hnf (isStatusForm_of_changed d line hd hne)
  · intro ns curl url requestHeaders hall
    have hfed := foldl_ReceiveHeader_no_status _ HeaderData.new rfl hall
    refine ⟨hfed, ?_, ?_⟩
    · simp only [GET, fillResponse, hfed]
      rfl
    · simp only [GET, fillResponse, hfed]
      rfl

/-- Witness of C11: the lines `HTTP/2 200` and `HTTP/1.1 200` do not have the form of a
status line and are ignored by a fresh `HeaderData`; the streams that start with them
surface status 0 and no header although a header line follows. -/
theorem C11_non_status_lines_ignored_witness :
    ¬ isStatusForm "HTTP/2 200".toList ∧
    ReceiveHeader HeaderData.new "HTTP/2 200".toList = HeaderData.new ∧
    ¬ isStatusForm "HTTP/1.1 200".toList ∧
    ReceiveHeader HeaderData.new "HTTP/1.1 200".toList = HeaderData.new ∧
    (GET sampleCodes (some (sampleCurl http2Stream)) [] []).responseStatus = 0 ∧
    (GET sampleCodes (some (sampleCurl http2Stream)) [] []).responseHeaders = [] ∧
    (GET sampleCodes (some (sampleCurl bareCodeStream)) [] []).responseStatus = 0 ∧
    (GET sampleCodes (some (sampleCurl bareCodeStream)) [] []).responseHeaders = [] :=
  have n1 : ¬ isStatusForm "HTTP/2 200".toList :=
    not_isStatusForm_of_ignored _ (by decide)
  have n2 : ¬ isStatusForm "HTTP/1.1 200".toList :=
    not_isStatusForm_of_ignored _ (by decide)
  have s1 := C11_non_status_lines_ignored.2 sampleCodes (sampleCurl http2Stream) [] []
    (fun l hl => not_isStatusForm_of_ignored l
      ((by decide : ∀ x ∈ http2Stream, ReceiveHeader HeaderData.new x = HeaderData.new)
        l hl))
  have s2 := C11_non_status_lines_ignored.2 sampleCodes (sampleCurl bareCodeStream) [] []
    (fun l hl => not_isStatusForm_of_ignored l
      ((by decide : ∀ x ∈ bareCodeStream, ReceiveHeader HeaderData.new x = HeaderData.new)
        l hl))
  ⟨n1, C11_non_status_lines_ignored.1 HeaderData.new _ rfl n1,
    n2, C11_non_status_lines_ignored.1 HeaderData.new _ rfl n2,
    s1.2.1, s1.2.2, s2.2.1, s2.2.2⟩

/-- C12: `HEAD` is the same function as `GET`. For every url, every list of request
headers and every behaviour of the transport (handle or no handle, and for a handle any
result code, header lines and body chunks), `HEAD` sets the same options as `GET`, none
of them `CURLOPT_NOBODY`, and returns the response that `GET` returns. -/
theorem C12_HEAD_same_as_GET (ns : IWebRequest) (curl_easy_init : Option Curl)
    (url : List Char) (requestHeaders : List (List Char × List Char)) :
    headOptions url requestHeaders = getOptions url requestHeaders ∧
    (∀ v : Int, CurlOption.NOBODY v ∉ headOptions url requestHeaders) ∧
    HEAD ns curl_easy_init url requestHeaders = GET ns curl_easy_init url requestHeaders := by
  refine ⟨rfl, ?_, ?_⟩
  · intro v hm
    simp only [headOptions, List.mem_append, List.mem_cons, List.mem_singleton,
      List.not_mem_nil, or_false] at hm
    rcases hm with hm | hm
    · rcases hm with h | h | h | h | h | h | h <;> exact CurlOption.noConfusion h
    · split at hm
      · rw [List.mem_singleton] at hm
        exact CurlOption.noConfusion hm
      · exact absurd hm (List.not_mem_nil _)
  · cases curl_easy_init with
    | none => rfl
    | some curl => rfl

end AdblockPlus
